import Mathlib

/-!
Verification development for the kusocatjs request-handling core.

The development shallowly embeds the three algorithmic components of the
repository and proves properties of the embedding:

* the `Context` dependency-resolution container
  (`packages/core/lib/context.ts`): lazy memoized resolution with explicit
  reference sets for cycle detection, immutability flags, derived resolvers
  and resolution listeners;
* the `Router` / `Matcher` (router source file): path normalization, the
  per-method segment trie with literal and parametric branches, the
  specificity order on parametric rules, trailing-separator redirects and
  URL generation from named routes;
* the request dispatcher (`packages/core/lib/app.ts`): the middleware
  chain driven by sequential `next()` continuations, per-step error
  interception, the upgrade sentinel and the finishing listeners.

Modelling conventions: JavaScript `Map`s become association lists with
`Map.get`/`Map.set` semantics, `Set`s become lists without duplicates
(insertion order preserved), symbols and class types become `Nat`
identifiers, and asynchronous values are flattened to their settled values
(every operation of the container is synchronous up to its suspension
points, and the embedded operations model the synchronous segments in
program order).  Recursion through resolver chains is modelled with an
explicit fuel argument standing for the call stack; running out of fuel is
a distinguished outcome (`CtxError.fuelOut`) that the termination theorems
rule out for sufficiently large fuel.  Resolver functions are modelled as
programs (`RProg`) that may read further context keys and then produce a
value, which is the shape of every resolver the claims exercise.
Invocation counters (`counts`, `ccounts`) and the listener log (`fired`)
are ghost instrumentation recording resolver invocations, instance
constructions and listener firings.
-/

namespace Kuso

/-- Association-list lookup with the semantics of JavaScript `Map.get`. -/
def alookup [DecidableEq α] : List (α × β) → α → Option β
  | [], _ => none
  | (a, b) :: t, x => if a = x then some b else alookup t x

/-- Association-list update with the semantics of JavaScript `Map.set`: an
existing key keeps its position and receives the new value, a fresh key is
appended at the end. -/
def aset [DecidableEq α] : List (α × β) → α → β → List (α × β)
  | [], x, y => [(x, y)]
  | (a, b) :: t, x, y => if a = x then (x, y) :: t else (a, b) :: aset t x y

/-! ## The Context container (`packages/core/lib/context.ts`) -/

/-- A context key: an opaque symbol, modelled by its identity. -/
abbrev Key := Nat

/-- A class-like type used with `construct`/`singleton`, modelled by its
identity. -/
abbrev Ty := Nat

/-- A reference appearing in a reference set: context keys and class types
share one `Set` in `Context.#resolve`/`#construct`. -/
inductive Ref where
  | k (key : Key)
  | t (ty : Ty)
deriving DecidableEq

/-- A context value.  Values are opaque to the container; constructed
instances are tagged with their type. -/
inductive Val where
  | num (n : Nat)
  | inst (ty : Ty)
deriving DecidableEq

/-- A resolver body: a resolver may call `get` on further keys through the
scoped interface it receives and finally produces a value.  The
continuation receives the value of the nested `get`. -/
inductive RProg where
  | ret (v : Val)
  | get (key : Key) (cont : Val → RProg)

/-- One dependency want of a class type: either a context key
(`@context`) or another singleton (`@singleton`), both with an empty
parent chain. -/
inductive Want where
  | ck (key : Key)
  | sg (ty : Ty)

/-- The state of one `Context` instance.  `instances`, `resolvers`,
`immutables`, `classes` and the listener registry mirror the private
fields `#instances`, `#resolvers`, `#immutables`, `#classes` and the
`EventEmitter` listeners keyed by the key symbol; `defaults` mirrors the
process-wide `defaultInstances` map; `wants` is the per-type injection
metadata read by `#construct`.  `fired` logs every resolution-listener
invocation; `counts` and `ccounts` are ghost invocation/construction
counters. -/
structure Ctx where
  instances : List (Ref × Val)
  resolvers : List (Key × RProg)
  immutables : List Key
  classes : List Ty
  listeners : List (Ref × Nat)
  fired : List (Nat × Val)
  counts : List (Key × Nat)
  ccounts : List (Ty × Nat)
  defaults : List (Key × Val)
  wants : List (Ty × List Want)

/-- An error raised by container operations.  `fuelOut` is the artifact of
the fuelled embedding and corresponds to no behaviour of the source; the
termination theorem shows it is unreachable with sufficient fuel. -/
inductive CtxError where
  | resolution (msg : String)
  | fuelOut
deriving DecidableEq

instance [DecidableEq ε] [DecidableEq α] : DecidableEq (Except ε α)
  | .ok x, .ok y =>
    if h : x = y then isTrue (congrArg Except.ok h)
    else isFalse (fun hc => h (Except.ok.inj hc))
  | .error x, .error y =>
    if h : x = y then isTrue (congrArg Except.error h)
    else isFalse (fun hc => h (Except.error.inj hc))
  | .ok _, .error _ => isFalse (fun hc => Except.noConfusion hc)
  | .error _, .ok _ => isFalse (fun hc => Except.noConfusion hc)

/-- `referenceToString` from the source: the description of a key symbol,
or the name of a class type. -/
def referenceToString : Ref → String
  | .k key => toString key
  | .t ty => toString ty

/-- The ordered dependency chain rendered as in the source error
messages: the reference set joined by arrows, followed by the offending
reference. -/
def chainMsg (refs : List Ref) (last : String) : String :=
  String.intercalate (" -> ") (refs.map referenceToString) ++ " -> " ++ last

/-- Message of the circular-dependency `ResolutionError`. -/
def circularMsg (refs : List Ref) (last : String) : String :=
  "Circular dependency detected: " ++ chainMsg refs last

/-- Message of the missing-resolver `ResolutionError`. -/
def noResolverMsg (refs : List Ref) (key : Key) : String :=
  "Error while resolving " ++ chainMsg refs (toString key) ++ ": no resolver found"

/-- The listeners currently attached for a reference, in registration
order (`this.listeners(key)`). -/
def listenersOf (s : Ctx) (r : Ref) : List Nat :=
  (s.listeners.filter (fun p => p.1 = r)).map (fun p => p.2)

/-- `Context.#set`: invoke the listeners attached for the reference with
the (settled) instance, then store the instance.  The deferred
`resolved`-event emission carries no further state and is not modelled. -/
def doSet (r : Ref) (v : Val) (s : Ctx) : Ctx :=
  { s with
    fired := s.fired ++ (listenersOf s r).map (fun cb => (cb, v)),
    instances := aset s.instances r v }

/-- Ghost counter bump: one more invocation of the resolver of `key`. -/
def bumpK (key : Key) (s : Ctx) : Ctx :=
  { s with counts := aset s.counts key ((alookup s.counts key).getD 0 + 1) }

/-- Ghost counter bump: one more construction of an instance of `ty`. -/
def bumpT (ty : Ty) (s : Ctx) : Ctx :=
  { s with ccounts := aset s.ccounts ty ((alookup s.ccounts ty).getD 0 + 1) }

/-- Number of recorded invocations of the resolver of `key`. -/
def countK (s : Ctx) (key : Key) : Nat := (alookup s.counts key).getD 0

/-- Number of recorded instance constructions of `ty`. -/
def countT (s : Ctx) (ty : Ty) : Nat := (alookup s.ccounts ty).getD 0

/-- Result of a value-producing container operation: the outcome together
with the container state (mutations before a throw persist, as they do on
the heap). -/
abbrev RRes := Except CtxError Val × Ctx

/-- Run a resolver body against the scoped interface: each `get` goes
through the supplied resolution function with the reference set of the
interface (`Context.#createInterface`). -/
def runProg (resF : Key → List Ref → Ctx → RRes) (refs : List Ref) : RProg → Ctx → RRes
  | .ret v, s => (.ok v, s)
  | .get key cont, s =>
    match resF key refs s with
    | (.ok v, s1) => runProg resF refs (cont v) s1
    | (.error e, s1) => (.error e, s1)

/-- `Context.#resolve(key, references)`: return the cached instance if
present; fail on a reference-set hit (cycle); otherwise invoke the
registered resolver against an interface carrying `references ∪ {key}` and
store its result via `#set`, falling back to the process-wide default (or
a missing-resolver error) when no resolver is registered.  The fuel
argument models the call stack. -/
def resolveF : Nat → Key → List Ref → Ctx → RRes
  | 0, _, _, s => (.error .fuelOut, s)
  | fuel + 1, key, refs, s =>
    match alookup s.instances (.k key) with
    | some v => (.ok v, s)
    | none =>
      if Ref.k key ∈ refs then
        (.error (.resolution (circularMsg refs (toString key))), s)
      else
        match alookup s.resolvers key with
        | some prog =>
          match runProg (resolveF fuel) (refs ++ [Ref.k key]) prog (bumpK key s) with
          | (.ok v, s1) => (.ok v, doSet (.k key) v s1)
          | (.error e, s1) => (.error e, s1)
        | none =>
          match alookup s.defaults key with
          | some v => (.ok v, { s with instances := aset s.instances (.k key) v })
          | none => (.error (.resolution (noResolverMsg refs key)), s)

/-- The injection metadata of a type. -/
def wantsOf (s : Ctx) (ty : Ty) : List Want := (alookup s.wants ty).getD []

/-- A pending activity of `Context.#construct`/`#singleton`: the three
mutually recursive phases are folded into one fuelled function. -/
inductive BTask where
  | construct (ty : Ty) (refs : List Ref)
  | singleton (ty : Ty) (refs : List Ref)
  | wantsLoop (ws : List Want) (refs : List Ref)

/-- `Context.#construct` / `Context.#singleton`, restricted to wants with
empty parent chains (the shape the claims exercise).  `#singleton` returns
the cached instance by type, otherwise constructs and stores one via
`#set`.  `#construct` fails on a reference-set hit; on the first
construction of a type it resolves the type's wants with the reference set
extended by the type and then caches the specialised class, and every
construction (cached class or not) builds a fresh instance (counted by
`ccounts`).  Context wants go through `#resolve`; singleton wants through
`#singleton`. -/
def buildF : Nat → BTask → Ctx → RRes
  | 0, _, s => (.error .fuelOut, s)
  | fuel + 1, task, s =>
    match task with
    | .singleton ty refs =>
      match alookup s.instances (.t ty) with
      | some v => (.ok v, s)
      | none =>
        match buildF fuel (.construct ty refs) s with
        | (.ok v, s1) => (.ok v, doSet (.t ty) v s1)
        | (.error e, s1) => (.error e, s1)
    | .construct ty refs =>
      if Ref.t ty ∈ refs then
        (.error (.resolution (circularMsg refs (toString ty))), s)
      else if ty ∈ s.classes then
        (.ok (.inst ty), bumpT ty s)
      else
        match buildF fuel (.wantsLoop (wantsOf s ty) (refs ++ [Ref.t ty])) s with
        | (.ok _, s1) => (.ok (.inst ty), bumpT ty { s1 with classes := s1.classes ++ [ty] })
        | (.error e, s1) => (.error e, s1)
    | .wantsLoop [] _ => (.ok (.num 0), s)
    | .wantsLoop (.ck key :: ws) refs =>
      match resolveF fuel key refs s with
      | (.ok _, s1) => buildF fuel (.wantsLoop ws refs) s1
      | (.error e, s1) => (.error e, s1)
    | .wantsLoop (.sg ty :: ws) refs =>
      match buildF fuel (.singleton ty refs) s with
      | (.ok _, s1) => buildF fuel (.wantsLoop ws refs) s1
      | (.error e, s1) => (.error e, s1)

/-- `Context.has(key)`: a cached instance, a registered resolver or a
process-wide default. -/
def hasKey (s : Ctx) (key : Key) : Bool :=
  (alookup s.instances (.k key)).isSome || (alookup s.resolvers key).isSome ||
    (alookup s.defaults key).isSome

/-- Result of a container operation that produces no value. -/
abbrev ORes := Except CtxError Unit × Ctx

/-- `Context.register(key, resolver, immutable?)`.  The message of the
first failure reads "Cannot derive", exactly as in the source. -/
def registerOp (key : Key) (resolver : RProg) (immutable : Bool) (s : Ctx) : ORes :=
  if key ∈ s.immutables then
    (.error (.resolution ("Cannot derive " ++ toString key ++ ": immutable instance")), s)
  else if immutable then
    if hasKey s key then
      (.error (.resolution ("Cannot set " ++ toString key ++
        " as immutable: context already exists and is not immutable")), s)
    else
      (.ok (), { s with immutables := s.immutables ++ [key],
                        resolvers := aset s.resolvers key resolver })
  else
    (.ok (), { s with resolvers := aset s.resolvers key resolver })

/-- `Context.set(key, instance, immutable?)`. -/
def setOp (key : Key) (v : Val) (immutable : Bool) (s : Ctx) : ORes :=
  if key ∈ s.immutables then
    (.error (.resolution ("Cannot set " ++ toString key ++ ": immutable instance")), s)
  else if immutable then
    if hasKey s key then
      (.error (.resolution ("Cannot set " ++ toString key ++
        " as immutable: context already exists and is not immutable")), s)
    else
      (.ok (), doSet (.k key) v { s with immutables := s.immutables ++ [key] })
  else
    (.ok (), doSet (.k key) v s)

/-- Sequencing of resolver bodies, used by `derive` to run the original
resolver and feed its (settled) result to the wrapper. -/
def bindProg : RProg → (Val → RProg) → RProg
  | .ret v, f => f v
  | .get key cont, f => .get key (fun v => bindProg (cont v) f)

/-- `Context.derive(key, resolver)`: wrap the existing resolver; fails on
an immutable key or when no resolver exists. -/
def deriveOp (key : Key) (f : Val → RProg) (s : Ctx) : ORes :=
  if key ∈ s.immutables then
    (.error (.resolution ("Cannot derive " ++ toString key ++ ": immutable instance")), s)
  else
    match alookup s.resolvers key with
    | none => (.error (.resolution ("Cannot derive " ++ toString key ++ ": no resolver found")), s)
    | some original =>
      (.ok (), { s with resolvers := aset s.resolvers key (bindProg original f) })

/-- `Context.replace(key, callback)`: resolve the current value, apply the
callback and store the result; fails on an immutable key. -/
def replaceOp (fuel : Nat) (key : Key) (f : Val → Val) (s : Ctx) : ORes :=
  if key ∈ s.immutables then
    (.error (.resolution ("Cannot replace " ++ toString key ++ ": immutable instance")), s)
  else
    match resolveF fuel key [] s with
    | (.ok v, s1) => (.ok (), doSet (.k key) (f v) s1)
    | (.error e, s1) => (.error e, s1)

/-- `Context.resolved(key)` without a callback: whether an instance is
cached (not merely a resolver registered). -/
def resolvedQ (s : Ctx) (key : Key) : Bool := (alookup s.instances (.k key)).isSome

/-- `Context.resolved(key, callback)`: attach the callback as a listener
for the key (`this.on(key, callback)`). -/
def resolvedCb (key : Key) (cb : Nat) (s : Ctx) : Ctx :=
  { s with listeners := s.listeners ++ [(Ref.k key, cb)] }

/-- `Context.get(key)`: resolution started with an empty reference set. -/
def getOp (fuel : Nat) (key : Key) (s : Ctx) : RRes := resolveF fuel key [] s

/-- `Context.construct(type)` with an empty reference set. -/
def constructOp (fuel : Nat) (ty : Ty) (s : Ctx) : RRes := buildF fuel (.construct ty []) s

/-- `Context.singleton(type)` with an empty reference set. -/
def singletonOp (fuel : Nat) (ty : Ty) (s : Ctx) : RRes := buildF fuel (.singleton ty []) s

/-- One public container operation, used to quantify over arbitrary
container usage. -/
inductive COp where
  | cset (key : Key) (v : Val) (immutable : Bool)
  | creg (key : Key) (r : RProg) (immutable : Bool)
  | cder (key : Key) (f : Val → RProg)
  | crep (fuel : Nat) (key : Key) (f : Val → Val)
  | cget (fuel : Nat) (key : Key)
  | cres (key : Key) (cb : Nat)
  | ccon (fuel : Nat) (ty : Ty)
  | csin (fuel : Nat) (ty : Ty)

/-- The container state after one public operation (errors leave the
mutations made before the throw in place, as on the heap). -/
def applyOp : COp → Ctx → Ctx
  | .cset key v i, s => (setOp key v i s).2
  | .creg key r i, s => (registerOp key r i s).2
  | .cder key f, s => (deriveOp key f s).2
  | .crep fuel key f, s => (replaceOp fuel key f s).2
  | .cget fuel key, s => (getOp fuel key s).2
  | .cres key cb, s => resolvedCb key cb s
  | .ccon fuel ty, s => (constructOp fuel ty s).2
  | .csin fuel ty, s => (singletonOp fuel ty s).2

/-- A sequence of top-level `get` calls, stopping at the first failure. -/
def runGets (fuel : Nat) : List Key → Ctx → Except CtxError Unit × Ctx
  | [], s => (.ok (), s)
  | key :: rest, s =>
    match getOp fuel key s with
    | (.ok _, s1) => runGets fuel rest s1
    | (.error e, s1) => (.error e, s1)

/-! ## Router / Matcher (router source file of `packages/core/lib`) -/

/-- The one-character strings the path code treats as separators are all
`/`; braces appear in route templates and are written by code point to
keep them out of string literals. -/
def lbrace : Char := Char.ofNat 123

/-- Closing brace, by code point. -/
def rbrace : Char := Char.ofNat 125

/-- Whether the last character is a separator (`endsWith('/')`). -/
def endsSep (s : String) : Bool := s.data.getLast? = some '/'

/-- `path.replace(/\/$/, '')`: drop a single trailing separator. -/
def stripTrailingSep (s : String) : String :=
  if endsSep s then String.mk s.data.dropLast else s

/-- `path.replace(/^\/?/, '/')`: ensure a single leading separator. -/
def ensureLeadingSep (s : String) : String :=
  if s.data.head? = some '/' then s else "/" ++ s

/-- `path.replace(/\/+/g, '/')`: collapse runs of separators. -/
def collapseSeps : List Char → List Char
  | [] => []
  | [c] => [c]
  | c :: d :: rest =>
    if c = '/' ∧ d = '/' then collapseSeps (d :: rest)
    else c :: collapseSeps (d :: rest)

/-- Accumulate the maximal runs of non-separator characters of a string
(`cur` is the current run, reversed; `acc` the finished runs, reversed). -/
def runsAux (cur : List Char) (acc : List (List Char)) : List Char → List (List Char)
  | [] => (if cur.isEmpty then acc else cur.reverse :: acc).reverse
  | c :: rest =>
    if c = '/' then
      if cur.isEmpty then runsAux [] acc rest
      else runsAux [] (cur.reverse :: acc) rest
    else runsAux (c :: cur) acc rest

/-- Maximal runs of non-separator characters, in order. -/
def pathRuns (cs : List Char) : List (List Char) := runsAux [] [] cs

/-- Resolve `.` and `..` segments as Node's posix `normalize` does for
absolute paths (a `..` above the root is dropped). -/
def dotsAux (stack : List (List Char)) : List (List Char) → List (List Char)
  | [] => stack.reverse
  | seg :: rest =>
    if seg = ['.'] then dotsAux stack rest
    else if seg = ['.', '.'] then dotsAux (stack.drop 1) rest
    else dotsAux (seg :: stack) rest

/-- `join(...)` from `path/posix` on a single absolute argument, i.e.
posix `normalize` of an absolute path: resolve dot segments, keep a
trailing separator when the input had one, and produce `/` for an empty
result.  `normalizePath` only ever calls it on a string with a leading
separator. -/
def posixNormalizeAbs (s : String) : String :=
  let trailing := endsSep s
  let segs := dotsAux [] (pathRuns s.data)
  if segs.isEmpty then "/"
  else
    "/" ++ String.intercalate ("/") (segs.map (fun seg => String.mk seg)) ++
      (if trailing then "/" else "")

/-- `normalizePath` from the router source: strip one trailing separator,
ensure a leading separator, collapse duplicate separators, then posix
`join`. -/
def normalizePath (path : String) : String :=
  posixNormalizeAbs (String.mk (collapseSeps (ensureLeadingSep (stripTrailingSep path)).data))

/-- The `PARTS` splitter (`scanParts` in the source): the regex loop
`/\/?[^/]+/g` yields, for each maximal run of non-separator characters,
`match[0].slice(1)`.  A run preceded by a separator is matched together
with that separator, which `slice(1)` removes; a run at the very start of
a string that does not begin with a separator loses its first character
instead. -/
def scanParts (s : String) : List String :=
  match pathRuns s.data, s.data.head? with
  | [], _ => []
  | r :: rs, h =>
    ((if h = some '/' then r else r.drop 1) :: rs).map (fun run => String.mk run)

/-- One piece of a compiled parametric segment pattern: escaped literal
text or a named capture `(?<name>[^/]+?)`.  Empty literal pieces are not
stored (they contribute nothing to the compiled pattern). -/
inductive Piece where
  | lit (text : String)
  | prm (name : String)
deriving DecidableEq

/-- A compiled parametric segment rule: its pattern pieces, the number of
named parameters and the number of literal (non-parameter) characters.
The source keys the parametric child map by the compiled pattern string;
since escaping makes the pieces recoverable from that string, the pieces
are used as the key here. -/
structure ParamRule where
  pieces : List Piece
  params : Nat
  statics : Nat
deriving DecidableEq

/-- First character class of a placeholder name: `[a-z_]` with the `i`
flag. -/
def isIdentStart (c : Char) : Bool := c.isAlpha || c = '_'

/-- Later character class of a placeholder name: `[a-z0-9_]` with the `i`
flag. -/
def isIdentChar (c : Char) : Bool := c.isAlpha || c.isDigit || c = '_'

/-- Read the remainder of a placeholder after `{` and a valid first
character: identifier characters up to the closing brace. -/
def readPhName (acc : List Char) : List Char → Option (String × List Char)
  | [] => none
  | c :: rest =>
    if c = rbrace then some (String.mk acc.reverse, rest)
    else if isIdentChar c then readPhName (c :: acc) rest
    else none

/-- Append the pending literal run (if non-empty) as a literal piece. -/
def flushLit (litAcc : List Char) (pieces : List Piece) : List Piece :=
  if litAcc.isEmpty then pieces else pieces ++ [Piece.lit (String.mk litAcc.reverse)]

/-- The `evaluateRule` scan loop: walk the segment, turning each
placeholder `{name}` into a capture piece and the text around the
placeholders into literal pieces, counting parameters and literal
characters exactly as the source accumulates `params` and `statics`.  The
fuel is an upper bound on the number of scan steps (one per consumed
character suffices). -/
def evalAux : Nat → List Char → List Char → List Piece → Nat → Nat → List Piece × Nat × Nat
  | 0, _, litAcc, pieces, params, statics =>
    (flushLit litAcc pieces, params, statics + litAcc.length)
  | fuel + 1, cs, litAcc, pieces, params, statics =>
    match cs with
    | [] => (flushLit litAcc pieces, params, statics + litAcc.length)
    | c :: rest =>
      if c = lbrace then
        match rest with
        | c1 :: rest1 =>
          if isIdentStart c1 then
            match readPhName [c1] rest1 with
            | some (name, rest2) =>
              evalAux fuel rest2 [] (flushLit litAcc pieces ++ [Piece.prm name]) (params + 1)
                (statics + litAcc.length)
            | none => evalAux fuel rest (c :: litAcc) pieces params statics
          else evalAux fuel rest (c :: litAcc) pieces params statics
        | [] => evalAux fuel [] (c :: litAcc) pieces params statics
      else evalAux fuel rest (c :: litAcc) pieces params statics

/-- A segment rule: a plain literal segment, or a compiled parametric
rule (`evaluateRule` in the source). -/
inductive SegRule where
  | lit (text : String)
  | par (rule : ParamRule)

/-- `evaluateRule(part)`: a segment without placeholders stays a literal;
otherwise it compiles to a parametric rule. -/
def evaluateRule (part : String) : SegRule :=
  let res := evalAux (part.length + 1) part.data [] [] 0 0
  if res.2.1 = 0 then .lit part
  else .par { pieces := res.1, params := res.2.1, statics := res.2.2 }

/-- `sortParamRule(a, b)` from the source:
`b.params - a.params || b.statics - a.statics`. -/
def sortParamRule (a b : ParamRule) : Int :=
  let d : Int := (b.params : Int) - (a.params : Int)
  if d ≠ 0 then d else (b.statics : Int) - (a.statics : Int)

/-- The (total pre)order induced by the comparator: `a` may come before
`b` in a comparator-sorted array exactly when `sortParamRule a b ≤ 0`. -/
def ruleLE (a b : ParamRule) : Prop := sortParamRule a b ≤ 0

instance : DecidableRel ruleLE := fun a b => by unfold ruleLE; infer_instance

/-- `[...sorted, rule].sort(sortParamRule)`: JavaScript `Array.sort` is a
stable sort, and stable sorting has a unique result, so the stable
`insertionSort` computes it. -/
def jsSort (l : List ParamRule) : List ParamRule := List.insertionSort ruleLE l

/-- Matching one parametric pattern against a segment with the regex
semantics of `^pattern$` built from lazy captures `[^/]+?` and escaped
literals: literals must match verbatim, a capture takes the shortest
non-empty run of non-separator characters (earlier captures minimised
first) that lets the rest match.  Returns the named captures in pattern
order.  The fuel is one step per piece. -/
def matchPiecesF : Nat → List Piece → List Char → Option (List (String × String))
  | 0, _, _ => none
  | fuel + 1, pieces, cs =>
    match pieces with
    | [] => if cs.isEmpty then some [] else none
    | .lit text :: rest =>
      if text.data.isPrefixOf cs then matchPiecesF fuel rest (cs.drop text.data.length)
      else none
    | .prm name :: rest =>
      (List.range cs.length).findSome? (fun i =>
        let pre := cs.take (i + 1)
        if pre.all (fun c => ¬ c = '/') then
          (matchPiecesF fuel rest (cs.drop (i + 1))).map
            (fun caps => (name, String.mk pre) :: caps)
        else none)

/-- Match a parametric rule's pieces against a whole segment. -/
def matchPieces (pieces : List Piece) (cs : List Char) : Option (List (String × String)) :=
  matchPiecesF (pieces.length + 1) pieces cs

/-- `for (const [key, value] of Object.entries(match.groups)) p.set(key, value)`
on a copy of the parameter map. -/
def setParams (params caps : List (String × String)) : List (String × String) :=
  caps.foldl (fun m kv => aset m kv.1 kv.2) params

/-- The slice of a registered route the resolution claims observe: an
identity, the normalized path template and the optional name. -/
structure Route where
  rid : Nat
  path : String
  name : Option String
deriving DecidableEq

/-- A `Matcher` trie node: optional terminal route, optional terminal
fallback, literal children keyed by segment text, parametric children
keyed by compiled pattern, and the parametric rules in specificity
order (`#route`, `#fallback`, `#exact`, `#param`, `#sorted`). -/
inductive Matcher where
  | node (route : Option Route) (fallback : Option Route)
      (exact : List (String × Matcher))
      (par : List (List Piece × Matcher))
      (sorted : List ParamRule)

/-- A fresh matcher node. -/
def Matcher.empty : Matcher := .node none none [] [] []

/-- `Matcher.put(parts, route, fallback)`: store the route (or fallback)
at the node reached by the segments, creating literal or parametric
children as the segments dictate; each parametric insertion re-sorts the
rule list with the specificity comparator. -/
def Matcher.put : Matcher → List String → Route → Bool → Matcher
  | .node r f ex pa so, [], route, fb =>
    if fb then .node r (some route) ex pa so else .node (some route) f ex pa so
  | .node r f ex pa so, part :: rest, route, fb =>
    match evaluateRule part with
    | .lit _ =>
      let child := (alookup ex part).getD Matcher.empty
      .node r f (aset ex part (child.put rest route fb)) pa so
    | .par rule =>
      let child := (alookup pa rule.pieces).getD Matcher.empty
      .node r f ex (aset pa rule.pieces (child.put rest route fb)) (jsSort (so ++ [rule]))

/-- `Matcher.resolve(parts, params)`: with the segments exhausted, the
terminal route wins, else the terminal fallback, else no match.
Otherwise an exact literal child, if present, is followed unconditionally;
else the parametric rules are tried in specificity order, recursing into
the matching child with the captures added (backtracking to the next rule
when the child yields nothing); else the node's fallback (with the
parameters accumulated so far), else no match. -/
def Matcher.resolve : Matcher → List String →
    List (String × String) → Option (Route × List (String × String))
  | .node r f _ _ _, [], params =>
    match r with
    | some route => some (route, params)
    | none =>
      match f with
      | some route => some (route, params)
      | none => none
  | .node _ f ex pa so, part :: rest, params =>
    match alookup ex part with
    | some child => child.resolve rest params
    | none =>
      match so.findSome? (fun rule =>
          match matchPieces rule.pieces part.data with
          | some caps =>
            match alookup pa rule.pieces with
            | some child => child.resolve rest (setParams params caps)
            | none => none
          | none => none) with
      | some res => some res
      | none =>
        match f with
        | some route => some (route, params)
        | none => none

/-! ### URI encoding, `String.replace` and the `Router` facade -/

/-- Value of one hexadecimal digit. -/
def hexVal (c : Char) : Option Nat :=
  if c.isDigit then some (c.toNat - 48)
  else if 'A' ≤ c ∧ c ≤ 'F' then some (c.toNat - 55)
  else if 'a' ≤ c ∧ c ≤ 'f' then some (c.toNat - 87)
  else none

/-- The reserved set of `decodeURI`/`encodeURI`: `uriReserved` plus `#`. -/
def uriReservedHash : List Char := [';', '/', '?', ':', '@', '&', '=', '+', '$', ',', '#']

/-- A UTF-8 continuation byte read from `%hh`. -/
def contByte (h1 h2 : Char) : Option Nat :=
  match hexVal h1, hexVal h2 with
  | some a, some b =>
    let v := 16 * a + b
    if 128 ≤ v ∧ v ≤ 191 then some v else none
  | _, _ => none

/-- ECMAScript `decodeURI`: percent escapes decode via UTF-8, except that
an escape decoding to a character of the reserved set is left verbatim;
malformed escapes or invalid UTF-8 sequences raise `URIError`, modelled by
`none`. -/
def decodeURIChars : List Char → Option (List Char)
  | [] => some []
  | c :: rest =>
    if c = '%' then
      match rest with
      | h1 :: h2 :: rest2 =>
        match hexVal h1, hexVal h2 with
        | some a, some b =>
          let v := 16 * a + b
          if v < 128 then
            let ch := Char.ofNat v
            if ch ∈ uriReservedHash then
              (decodeURIChars rest2).map (fun t => '%' :: h1 :: h2 :: t)
            else (decodeURIChars rest2).map (fun t => ch :: t)
          else if 194 ≤ v ∧ v ≤ 223 then
            match rest2 with
            | '%' :: g1 :: g2 :: rest3 =>
              match contByte g1 g2 with
              | some w =>
                (decodeURIChars rest3).map (fun t => Char.ofNat ((v - 192) * 64 + (w - 128)) :: t)
              | none => none
            | _ => none
          else if 224 ≤ v ∧ v ≤ 239 then
            match rest2 with
            | '%' :: g1 :: g2 :: '%' :: g3 :: g4 :: rest3 =>
              match contByte g1 g2, contByte g3 g4 with
              | some w1, some w2 =>
                let cp := (v - 224) * 4096 + (w1 - 128) * 64 + (w2 - 128)
                if 2048 ≤ cp ∧ ¬ (55296 ≤ cp ∧ cp ≤ 57343) then
                  (decodeURIChars rest3).map (fun t => Char.ofNat cp :: t)
                else none
              | _, _ => none
            | _ => none
          else if 240 ≤ v ∧ v ≤ 244 then
            match rest2 with
            | '%' :: g1 :: g2 :: '%' :: g3 :: g4 :: '%' :: g5 :: g6 :: rest3 =>
              match contByte g1 g2, contByte g3 g4, contByte g5 g6 with
              | some w1, some w2, some w3 =>
                let cp := (v - 240) * 262144 + (w1 - 128) * 4096 + (w2 - 128) * 64 + (w3 - 128)
                if 65536 ≤ cp ∧ cp ≤ 1114111 then
                  (decodeURIChars rest3).map (fun t => Char.ofNat cp :: t)
                else none
              | _, _, _ => none
            | _ => none
          else none
        | _, _ => none
      | _ => none
    else (decodeURIChars rest).map (fun t => c :: t)

/-- ECMAScript `decodeURI` on strings. -/
def decodeURI (s : String) : Option String := (decodeURIChars s.data).map String.mk

/-- The `uriMark` characters left unescaped by `encodeURI`. -/
def uriMark : List Char := ['-', '_', '.', '!', '~', '*', Char.ofNat 39, '(', ')']

/-- A character `encodeURI` leaves as-is. -/
def encodeKeep (c : Char) : Bool := c.isAlphanum || c ∈ uriMark || c ∈ uriReservedHash

/-- Uppercase hexadecimal digit. -/
def hexDigitU (n : Nat) : Char := if n < 10 then Char.ofNat (48 + n) else Char.ofNat (55 + n)

/-- UTF-8 bytes of a character. -/
def utf8Bytes (c : Char) : List Nat :=
  let n := c.toNat
  if n < 128 then [n]
  else if n < 2048 then [192 + n / 64, 128 + n % 64]
  else if n < 65536 then [224 + n / 4096, 128 + (n / 64) % 64, 128 + n % 64]
  else [240 + n / 262144, 128 + (n / 4096) % 64, 128 + (n / 64) % 64, 128 + n % 64]

/-- ECMAScript `encodeURI`: characters outside the unescaped and reserved
sets are percent-encoded byte-wise. -/
def encodeURI (s : String) : String :=
  String.mk (s.data.flatMap (fun c =>
    if encodeKeep c then [c]
    else (utf8Bytes c).flatMap (fun b => ['%', hexDigitU (b / 16), hexDigitU (b % 16)])))

/-- Find the first occurrence of `pat` in a character list, returning the
text before and after the match. -/
def findSub : List Char → List Char → Option (List Char × List Char)
  | [], pat => if pat.isEmpty then some ([], []) else none
  | c :: rest, pat =>
    if pat.isPrefixOf (c :: rest) then some ([], (c :: rest).drop pat.length)
    else
      match findSub rest pat with
      | some (pre, post) => some (c :: pre, post)
      | none => none

/-- JavaScript replacement-pattern processing for a string pattern:
`$$` is a dollar sign, `$&` the matched text, a dollar followed by the
backtick (code 96) the text before the match, a dollar followed by the
apostrophe (code 39) the text after it; any other dollar is literal. -/
def getSubstitution (matched pre post : List Char) : List Char → List Char
  | [] => []
  | c :: rest =>
    if c = '$' then
      match rest with
      | d :: rest1 =>
        if d = '$' then '$' :: getSubstitution matched pre post rest1
        else if d = '&' then matched ++ getSubstitution matched pre post rest1
        else if d = Char.ofNat 96 then pre ++ getSubstitution matched pre post rest1
        else if d = Char.ofNat 39 then post ++ getSubstitution matched pre post rest1
        else c :: d :: getSubstitution matched pre post rest1
      | [] => [c]
    else c :: getSubstitution matched pre post rest

/-- JavaScript `String.prototype.replace` with a string pattern: replaces
only the first occurrence, applying replacement-pattern processing. -/
def jsReplace (s pat repl : String) : String :=
  match findSub s.data pat.data with
  | none => s
  | some (pre, post) => String.mk (pre ++ getSubstitution pat.data pre post repl.data ++ post)

/-- The router state the claims observe: the shared name registry and the
per-method matcher tries (`#namedRoutes`, `#matchers`); `nextId` supplies
route identities. -/
structure RouterS where
  namedRoutes : List (String × Route)
  matchers : List (String × Matcher)
  nextId : Nat

/-- A router with no registered routes. -/
def RouterS.empty : RouterS := ⟨[], [], 0⟩

/-- `Router.#createRoute` for a direct registration (no group prefix):
normalize the path, record the optional name in the name registry, split
the path into parts and insert the route into the matcher of every listed
method (a fallback registration passes an empty method list and so
reaches no matcher, exactly as in the source). -/
def routerMatch (methods : List String) (path : String) (name? : Option String)
    (fb : Bool) (rt : RouterS) : RouterS :=
  let npath := normalizePath path
  let route : Route := { rid := rt.nextId, path := npath, name := name? }
  let named := match name? with
    | some n => aset rt.namedRoutes n route
    | none => rt.namedRoutes
  let parts := scanParts npath
  let ms := methods.foldl (fun ms m =>
    aset ms m (((alookup ms m).getD Matcher.empty).put parts route fb)) rt.matchers
  { namedRoutes := named, matchers := ms, nextId := rt.nextId + 1 }

/-- A request as `Router.resolve` reads it from the `URL` object: the
method, the serialized origin, the raw path component and the serialized
query.  `url.toString()` is origin ++ pathname ++ search, and assigning
`url.pathname` replaces the path component. -/
structure Req where
  method : String
  urlBase : String
  pathname : String
  search : String

/-- A failure of route resolution: the `RedirectError` thrown for
trailing separators (carrying target URL and status), or the `URIError`
of a malformed escape in `decodeURI`. -/
inductive RouteErr where
  | redirect (url : String) (status : Nat)
  | uriError
deriving DecidableEq

/-- The resolved-route record returned by `Router.resolve`. -/
structure Resolved where
  name : Option String
  route : String
  params : List (String × String)
  rid : Nat
deriving DecidableEq

/-- `Router.resolve`: treat `HEAD` as `GET`; no matcher for the method
means no match; normalize the percent-decoded path, split and walk the
trie; on a match with a raw path that ends in a separator (and is not the
root) throw a `RedirectError` with status `307` whose URL is the request
URL with the path replaced by the encoded normalized path. -/
def routerResolve (rt : RouterS) (req : Req) : Except RouteErr (Option Resolved) :=
  let method := if req.method = "HEAD" then "GET" else req.method
  match alookup rt.matchers method with
  | none => .ok none
  | some matcher =>
    match decodeURI req.pathname with
    | none => .error .uriError
    | some decoded =>
      let path := normalizePath decoded
      match matcher.resolve (scanParts path) [] with
      | none => .ok none
      | some res =>
        if endsSep req.pathname = true ∧ req.pathname ≠ "/" then
          .error (.redirect (req.urlBase ++ encodeURI path ++ req.search) 307)
        else
          .ok (some { name := res.1.name, route := res.1.path, params := res.2, rid := res.1.rid })

/-- `Router.generate(name, params)`: look up the named route, fail if it
does not exist, and fold over the supplied parameters replacing the
pattern `{key}` by the value with `String.replace`. -/
def generate (rt : RouterS) (name : String) (params : List (String × String)) :
    Except String String :=
  match alookup rt.namedRoutes name with
  | none => .error ("Route \"" ++ name ++ "\" does not exist")
  | some route =>
    .ok (params.foldl
      (fun p kv => jsReplace p (String.mk [lbrace] ++ kv.1 ++ String.mk [rbrace]) kv.2)
      route.path)

/-! ## The request dispatcher (`App.#handle` in `packages/core/lib/app.ts`) -/

/-- A chain result: a response value or the literal upgrade sentinel. -/
inductive RespV where
  | resp (n : Nat)
  | upgraded
deriving DecidableEq

/-- One middleware, classified by its interaction with `next()`:
`halt` returns a value (possibly the upgrade sentinel) without invoking
the continuation, `fail` throws, and `thenCont f` awaits `next()` once
and post-processes its result with `f`, which may itself throw
(`Except.error`). -/
inductive MW where
  | halt (r : RespV)
  | fail (e : Nat)
  | thenCont (f : RespV → Except Nat RespV)

/-- A middleware that returns `next()` unchanged. -/
def MW.pass : MW := .thenCont Except.ok

/-- Events of the ghost execution trace: a chain step starting, the
handler running, the error handler rendering an error, one finishing
listener running, and the deferred `upgraded` / `finished`
notifications being scheduled. -/
inductive Ev where
  | step (i : Nat)
  | handler
  | rendered (e : Nat)
  | finish (j : Nat)
  | upgradedEv
  | finishedEv
deriving DecidableEq

/-- The `next()` continuation of `App.#handle` at position `i`: run the
next middleware (or, past the end, the handler) inside a try/catch whose
catch renders the error with the request's error handler; the rendered
response becomes this step's result.  The handler is its outcome
(`Except.error` models a throw, as with the default not-found handler). -/
def nextF (render : Nat → Nat) (h : Except Nat RespV) : List MW → Nat → RespV × List Ev
  | [], _ =>
    match h with
    | .ok r => (r, [.handler])
    | .error e => (.resp (render e), [.handler, .rendered e])
  | mw :: rest, i =>
    match mw with
    | .halt r => (r, [.step i])
    | .fail e => (.resp (render e), [.step i, .rendered e])
    | .thenCont f =>
      match nextF render h rest (i + 1) with
      | (r, t) =>
        match f r with
        | .ok r1 => (r1, .step i :: t)
        | .error e => (.resp (render e), .step i :: t ++ [.rendered e])

/-- The finishing phase: listeners run in registration order, each seeing
the current response and optionally replacing it via `setres`. -/
def runFin : List (RespV → Option Nat) → RespV → Nat → RespV × List Ev
  | [], r, _ => (r, [])
  | f :: fs, r, j =>
    let r1 := match f r with
      | some n => RespV.resp n
      | none => r
    match runFin fs r1 (j + 1) with
    | (r2, t) => (r2, .finish j :: t)

/-- The chain portion of `App.#handle`: run `next()` from index `0`; if
the result is the upgrade sentinel, schedule the `upgraded` notification
and return without a response; otherwise run the finishing listeners,
schedule the `finished` notification and return the final response. -/
def handleChain (render : Nat → Nat) (mws : List MW) (h : Except Nat RespV)
    (fins : List (RespV → Option Nat)) : Option RespV × List Ev :=
  match nextF render h mws 0 with
  | (res, t) =>
    if res = RespV.upgraded then (none, t ++ [.upgradedEv])
    else
      match runFin fins res 0 with
      | (final, t2) => (some final, t ++ t2 ++ [.finishedEv])

/-! ## Auxiliary predicates used by the theorems -/

/-- The parametric rules of a matcher's root node, in the order the
resolution loop tries them. -/
def Matcher.topSorted : Matcher → List ParamRule
  | .node _ _ _ _ so => so

/-- `A` is strictly more specific than `B`: strictly more named
parameters, or a tie on parameters and strictly more literal
characters. -/
def strictSpec (a b : ParamRule) : Prop :=
  b.params < a.params ∨ (b.params = a.params ∧ b.statics < a.statics)

instance (a b : ParamRule) : Decidable (strictSpec a b) := by
  unfold strictSpec; infer_instance

/-- Every node of the trie keeps its parametric rules in specificity
order (non-strictly sorted by the comparator). -/
inductive WFSorted : Matcher → Prop where
  | node : ∀ route fb ex pa so,
      so.Pairwise ruleLE →
      (∀ p ∈ ex, WFSorted p.2) →
      (∀ p ∈ pa, WFSorted p.2) →
      WFSorted (.node route fb ex pa so)

/-- Build a matcher from a registration sequence (parts, route, fallback
flag). -/
def buildMatcher (regs : List (List String × Route × Bool)) : Matcher :=
  regs.foldl (fun m r => m.put r.1 r.2.1 r.2.2) Matcher.empty

/-- The number of registered resolvers whose key is not yet in the
reference set: an upper bound on the remaining resolution depth. -/
def resolversOutside (refs : List Ref) (s : Ctx) : Nat :=
  (s.resolvers.filter (fun p => Ref.k p.1 ∉ refs)).length

/-- The memoization invariant: every resolver has run at most once, and a
resolver that has run belongs to a key that is either cached or still
mid-resolution (in the reference set). -/
def InvC (refs : List Ref) (s : Ctx) : Prop :=
  ∀ key, countK s key ≤ 1 ∧
    (countK s key = 1 → (alookup s.instances (.k key)).isSome = true ∨ Ref.k key ∈ refs)

/-- Cached instances are never dropped. -/
def instSome (s s' : Ctx) : Prop :=
  ∀ r, (alookup s.instances r).isSome = true → (alookup s'.instances r).isSome = true

/-- Resolution touches only instances and ghost logs: resolvers,
immutability flags, listeners, defaults and injection metadata are
untouched. -/
def frameC (s s' : Ctx) : Prop :=
  s'.resolvers = s.resolvers ∧ s'.immutables = s.immutables ∧
    s'.listeners = s.listeners ∧ s'.defaults = s.defaults ∧ s'.wants = s.wants

/-- An operation result that failed with a `ResolutionError`. -/
def failedRes (r : Except CtxError Unit) : Prop :=
  ∃ msg, r = .error (.resolution msg)

/-! ## Association-list lemmas -/

theorem alookup_aset_self [DecidableEq α] (l : List (α × β)) (k : α) (v : β) :
    alookup (aset l k v) k = some v := by
  induction l with
  | nil => simp [alookup, aset]
  | cons p t ih =>
    by_cases h : p.1 = k
    · simp [aset, alookup, h]
    · simp [aset, alookup, h, ih]

theorem alookup_aset_other [DecidableEq α] (l : List (α × β)) (k k' : α) (v : β)
    (h : k ≠ k') : alookup (aset l k v) k' = alookup l k' := by
  induction l with
  | nil => simp [alookup, aset, h]
  | cons p t ih =>
    by_cases hp : p.1 = k
    · simp [aset, alookup, hp, h]
    · simp [aset, alookup, hp, ih]

theorem alookup_mem [DecidableEq α] (l : List (α × β)) (k : α) (v : β)
    (h : alookup l k = some v) : (k, v) ∈ l := by
  induction l with
  | nil => simp [alookup] at h
  | cons p t ih =>
    obtain ⟨a, b⟩ := p
    by_cases hp : a = k
    · simp [alookup, hp] at h
      subst hp
      subst h
      exact .head _
    · simp [alookup, hp] at h
      exact .tail _ (ih h)

theorem mem_aset [DecidableEq α] (l : List (α × β)) (k : α) (v : β) (p : α × β)
    (h : p ∈ aset l k v) : p = (k, v) ∨ p ∈ l := by
  induction l with
  | nil => simpa [aset] using h
  | cons q t ih =>
    by_cases hq : q.1 = k
    · simp [aset, hq] at h
      rcases h with h | h
      · exact .inl h
      · exact .inr (.tail _ h)
    · simp [aset, hq] at h
      rcases h with h | h
      · exact .inr (by simp [h])
      · rcases ih h with h' | h'
        · exact .inl h'
        · exact .inr (.tail _ h')

theorem aset_isSome [DecidableEq α] (l : List (α × β)) (k k' : α) (v : β)
    (h : (alookup l k').isSome = true) : (alookup (aset l k v) k').isSome = true := by
  by_cases hk : k = k'
  · subst hk; simp [alookup_aset_self]
  · rw [alookup_aset_other l k k' v hk]; exact h

/-! ## C10: unconditional commitment to exact literal children -/

/-- C10: during trie resolution, a present exact literal child is
followed unconditionally — the node's result is exactly the child's
result on the remaining segments, so when the child's subtree yields
nothing the node yields no match, regardless of its parametric children
and of its own fallback. -/
theorem c10_exact_commit (r f : Option Route) (ex : List (String × Matcher))
    (pa : List (List Piece × Matcher)) (so : List ParamRule)
    (part : String) (rest : List String) (params : List (String × String))
    (child : Matcher) (h : alookup ex part = some child) :
    Matcher.resolve (.node r f ex pa so) (part :: rest) params = child.resolve rest params ∧
    (child.resolve rest params = none →
      Matcher.resolve (.node r f ex pa so) (part :: rest) params = none) := by
  constructor
  · simp [Matcher.resolve, h]
  · intro hn
    simp [Matcher.resolve, h, hn]

/-- A node whose exact child for `a` dead-ends while a parametric rule
would match `a` and a fallback is present. -/
def c10m : Matcher :=
  .node none (some ⟨9, "/fb", none⟩)
    [(("a"), Matcher.empty)]
    [([Piece.prm ("x")], .node (some ⟨1, "/x", none⟩) none [] [] [])]
    [⟨[Piece.prm ("x")], 1, 0⟩]

theorem c10_witness :
    Matcher.resolve c10m [("a")] [] = Matcher.resolve Matcher.empty [] [] ∧
      Matcher.resolve c10m [("a")] [] = none := by
  have h := c10_exact_commit none (some ⟨9, "/fb", none⟩)
    [(("a"), Matcher.empty)]
    [([Piece.prm ("x")], .node (some ⟨1, "/x", none⟩) none [] [] [])]
    [⟨[Piece.prm ("x")], 1, 0⟩] ("a") [] [] Matcher.empty rfl
  exact ⟨h.1, h.2 rfl⟩

/-! ## C1: trailing-separator redirects -/

/-- C1 (amended): when the raw request path ends in a separator, is not
the root, decodes successfully and its normalization matches the trie of
the request's method, resolution fails with a `RedirectError` of status
`307` (a temporary redirect, not a permanent one) whose target URL is the
request URL with the path component replaced by the encoded normalized
(trailing-separator-stripped) path. -/
theorem c1_redirect (rt : RouterS) (req : Req) (matcher : Matcher) (decoded : String)
    (hms : alookup rt.matchers (if req.method = "HEAD" then "GET" else req.method) =
      some matcher)
    (hdec : decodeURI req.pathname = some decoded)
    (hmatch : (matcher.resolve (scanParts (normalizePath decoded)) []).isSome = true)
    (hslash : endsSep req.pathname = true)
    (hroot : req.pathname ≠ "/") :
    routerResolve rt req = .error (.redirect
      (req.urlBase ++ encodeURI (normalizePath decoded) ++ req.search) 307) := by
  obtain ⟨res, hres⟩ := Option.isSome_iff_exists.mp hmatch
  unfold routerResolve
  simp only [hms, hdec, hres]
  rw [if_pos ⟨hslash, hroot⟩]

/-- The router of the redirect example: `GET /foo` registered. -/
def c1rt : RouterS := routerMatch [("GET")] ("/foo") none false RouterS.empty

/-- The matcher the example router stores for `GET`. -/
def c1m : Matcher :=
  Matcher.empty.put (scanParts (normalizePath ("/foo"))) ⟨0, normalizePath ("/foo"), none⟩ false

theorem c1_witness :
    routerResolve c1rt ⟨"GET", "http://h", "/foo/", ""⟩ = .error (.redirect
      ("http://h" ++ encodeURI (normalizePath ("/foo/")) ++ "") 307) :=
  c1_redirect c1rt ⟨"GET", "http://h", "/foo/", ""⟩ c1m ("/foo/") rfl rfl (by decide)
    (by decide) (by decide)

/-- C1 counterexample: the claim calls the signal a permanent redirect,
but the thrown `RedirectError` carries status `307`, which is neither
`301` nor `308`. -/
theorem c1_counterexample :
    routerResolve c1rt ⟨"GET", "http://h", "/foo/", ""⟩ =
      .error (.redirect ("http://h/foo") 307) ∧ ¬ (307 = 301 ∨ 307 = 308) := by
  constructor
  · decide
  · decide

/-! ## C7: URL generation from named routes -/

theorem findSub_first (A pat B : List Char) (hpat : pat ≠ [])
    (hfirst : ∀ j, j < A.length → (pat.isPrefixOf ((A ++ pat ++ B).drop j)) = false) :
    findSub (A ++ pat ++ B) pat = some (A, B) := by
  induction A with
  | nil =>
    match pat, hpat with
    | p :: pt, _ =>
      show findSub (p :: (pt ++ B)) (p :: pt) = some ([], B)
      have hpre : (p :: pt).isPrefixOf (p :: (pt ++ B)) = true := by
        rw [List.isPrefixOf_iff_prefix]
        exact ⟨B, by simp⟩
      rw [findSub, hpre]
      simp
  | cons c A' ih =>
    have h0 : pat.isPrefixOf (c :: (A' ++ pat ++ B)) = false := by
      have := hfirst 0 (by simp)
      simpa using this
    show findSub (c :: (A' ++ pat ++ B)) pat = some (c :: A', B)
    rw [findSub, h0]
    have ih' := ih (fun j hj => by
      have := hfirst (j + 1) (by simpa using Nat.succ_lt_succ hj)
      simpa using this)
    have ih2 : findSub (A' ++ (pat ++ B)) pat = some (A', B) := by
      rw [← List.append_assoc]
      exact ih'
    simp [ih2]

theorem getSubstitution_plain (matched pre post repl : List Char)
    (h : ∀ c ∈ repl, c ≠ '$') : getSubstitution matched pre post repl = repl := by
  induction repl with
  | nil => rfl
  | cons c rest ih =>
    have hc : ¬ c = '$' := h c (.head _)
    rw [getSubstitution.eq_def]
    simp only [if_neg hc]
    rw [ih (fun d hd => h d (.tail _ hd))]

theorem jsReplace_first_occurrence (s pat repl : String) (A B : List Char)
    (hs : s.data = A ++ pat.data ++ B) (hpat : pat.data ≠ [])
    (hfirst : ∀ j, j < A.length →
      (pat.data.isPrefixOf ((A ++ pat.data ++ B).drop j)) = false)
    (hplain : ∀ c ∈ repl.data, c ≠ '$') :
    jsReplace s pat repl = String.mk (A ++ repl.data ++ B) := by
  unfold jsReplace
  rw [hs, findSub_first _ _ _ hpat hfirst]
  show String.mk (A ++ getSubstitution pat.data A B repl.data ++ B) =
    String.mk (A ++ repl.data ++ B)
  rw [getSubstitution_plain _ _ _ _ hplain]

/-- C7 (amended): `generate` fails for a name no route carries and
succeeds for every known name regardless of leftover placeholders, and it
replaces the **first** occurrence of each `{key}` placeholder with the
supplied value (not every occurrence: `String.replace` with a string
pattern replaces only the first match). -/
theorem c7_generate (rt : RouterS) :
    (∀ name params, alookup rt.namedRoutes name = none →
       generate rt name params = .error ("Route \"" ++ name ++ "\" does not exist")) ∧
    (∀ name route params, alookup rt.namedRoutes name = some route →
       ∃ out, generate rt name params = .ok out) ∧
    (∀ name route (k v : String) (A B : List Char),
       alookup rt.namedRoutes name = some route →
       route.path.data = A ++ (String.mk [lbrace] ++ k ++ String.mk [rbrace]).data ++ B →
       (∀ j, j < A.length →
         ((String.mk [lbrace] ++ k ++ String.mk [rbrace]).data.isPrefixOf
           ((A ++ (String.mk [lbrace] ++ k ++ String.mk [rbrace]).data ++ B).drop j)) = false) →
       (∀ c ∈ v.data, c ≠ '$') →
       generate rt name [(k, v)] = .ok (String.mk (A ++ v.data ++ B))) := by
  refine ⟨?_, ?_, ?_⟩
  · intro name params hnone
    simp [generate, hnone]
  · intro name route params hsome
    exact ⟨_, by unfold generate; rw [hsome]⟩
  · intro name route k v A B hsome hpath hfirst hplain
    unfold generate
    rw [hsome]
    simp only [List.foldl]
    rw [jsReplace_first_occurrence _ _ _ A B hpath (by simp [String.data_append]) hfirst hplain]

/-- Router with the route `/items/{id}/{id}` named `dup`. -/
def c7rt : RouterS :=
  routerMatch [("GET")] ("/items/\x7bid\x7d/\x7bid\x7d") (some ("dup")) false RouterS.empty

/-- C7 counterexample: with the placeholder `{id}` occurring twice,
`generate` substitutes only the first occurrence, so the claim's
"every occurrence" behaviour does not hold. -/
theorem c7_counterexample :
    generate c7rt ("dup") [(("id"), ("5"))] = .ok ("/items/5/\x7bid\x7d") ∧
      ("/items/5/\x7bid\x7d" : String) ≠ "/items/5/5" := by
  exact ⟨by decide, by decide⟩

/-- Router with the route `/items/{id}` named `one`. -/
def c7rt2 : RouterS :=
  routerMatch [("GET")] ("/items/\x7bid\x7d") (some ("one")) false RouterS.empty

theorem c7_witness :
    generate c7rt2 ("zzz") [] = .error ("Route \"zzz\" does not exist") ∧
      generate c7rt2 ("one") [(("id"), ("5"))] =
        .ok (String.mk (("/items/").data ++ ("5").data ++ [])) := by
  refine ⟨(c7_generate c7rt2).1 ("zzz") [] (by decide), ?_⟩
  exact (c7_generate c7rt2).2.2 ("one") ⟨0, normalizePath ("/items/\x7bid\x7d"), some ("one")⟩
    ("id") ("5") ("/items/").data [] (by decide) (by decide) (by decide) (by decide)

/-! ## C8: per-step error interception -/

theorem nextF_pass (render : Nat → Nat) (h : Except Nat RespV) (rest : List MW) (i : Nat) :
    nextF render h (MW.pass :: rest) i =
      ((nextF render h rest (i + 1)).1, .step i :: (nextF render h rest (i + 1)).2) := by
  cases hn : nextF render h rest (i + 1) with
  | mk r t => simp [MW.pass, nextF, hn]

theorem nextF_pass_chain (render : Nat → Nat) (h : Except Nat RespV) (k : Nat)
    (tail : List MW) (i : Nat) :
    nextF render h (List.replicate k MW.pass ++ tail) i =
      ((nextF render h tail (i + k)).1,
       (List.range' i k).map Ev.step ++ (nextF render h tail (i + k)).2) := by
  induction k generalizing i with
  | zero => simp [List.range']
  | succ n ih =>
    rw [List.replicate_succ, List.cons_append, nextF_pass, ih (i + 1)]
    have hn : i + 1 + n = i + (n + 1) := by omega
    rw [hn]
    simp [List.range']

theorem runFin_trace (fins : List (RespV → Option Nat)) (r : RespV) (j : Nat) :
    (runFin fins r j).2 = (List.range' j fins.length).map Ev.finish := by
  induction fins generalizing r j with
  | nil => simp [runFin, List.range']
  | cons f fs ih =>
    unfold runFin
    cases hr : runFin fs (match f r with | some n => RespV.resp n | none => r) (j + 1) with
    | mk r2 t =>
      have h2 := ih (match f r with | some n => RespV.resp n | none => r) (j + 1)
      rw [hr] at h2
      simp only [hr]
      simp [List.range']
      simpa using h2

/-- C8 (amended): an exception at a chain step is caught at exactly that
step — the step's own result is the error handler's rendered response,
whatever follows in the chain, and nothing later in the chain runs from
that step.  When the steps before the throwing one pass results through
unchanged, the finishing listeners all still run, starting from the
rendered response (middleware between the dispatcher and the throwing
step may in general transform the response the finishing listeners
observe). -/
theorem c8_caught (render : Nat → Nat) (h : Except Nat RespV) :
    (∀ rest i e, nextF render h (MW.fail e :: rest) i =
       (.resp (render e), [.step i, .rendered e])) ∧
    (∀ (k : Nat) rest e fins,
       handleChain render (List.replicate k MW.pass ++ MW.fail e :: rest) h fins =
         (some (runFin fins (.resp (render e)) 0).1,
          (List.range' 0 (k + 1)).map Ev.step ++ [.rendered e] ++
            (List.range' 0 fins.length).map Ev.finish ++ [.finishedEv])) := by
  constructor
  · intro rest i e
    rfl
  · intro k rest e fins
    unfold handleChain
    rw [nextF_pass_chain]
    have hfail : nextF render h (MW.fail e :: rest) (0 + k) =
        (.resp (render e), [.step (0 + k), .rendered e]) := rfl
    rw [hfail]
    simp only [reduceCtorEq, if_false]
    cases hr : runFin fins (RespV.resp (render e)) 0 with
    | mk final t2 =>
      have ht2 : t2 = (List.range' 0 fins.length).map Ev.finish := by
        have := runFin_trace fins (RespV.resp (render e)) 0
        rw [hr] at this
        exact this
      subst ht2
      simp [List.range'_concat]

/-- C8 counterexample: a middleware before the throwing step that maps
the result replaces the rendered response, so the finishing listeners do
not observe the error handler's rendered response (`resp 5` rendered,
`resp 9` observed). -/
theorem c8_counterexample :
    handleChain (fun e => e) [MW.thenCont (fun _ => Except.ok (RespV.resp 9)), MW.fail 5]
        (.ok (.resp 0)) [fun _ => none] =
      (some (.resp 9), [.step 0, .step 1, .rendered 5, .finish 0, .finishedEv]) ∧
      RespV.resp 9 ≠ RespV.resp 5 := by
  exact ⟨by decide, by decide⟩

/-! ## C9: the upgrade sentinel halts the chain -/

/-- C9 (amended): a step that returns a value without invoking its
continuation ends the chain at that step — no later middleware and no
handler contributes to its result or to the trace past it; and when every
earlier step passes results through unchanged and the returned value is
the upgrade sentinel, the dispatcher runs no finishing listener,
schedules the `upgraded` notification and returns without a response
body.  (A middleware between the dispatcher and the halting step may in
general transform the sentinel into an ordinary response, in which case
the finishing phase runs.) -/
theorem c9_upgrade (render : Nat → Nat) (h : Except Nat RespV) :
    (∀ rest i r, nextF render h (MW.halt r :: rest) i = (r, [.step i])) ∧
    (∀ (k : Nat) rest fins,
       handleChain render (List.replicate k MW.pass ++ MW.halt RespV.upgraded :: rest) h fins =
         (none, (List.range' 0 (k + 1)).map Ev.step ++ [.upgradedEv])) := by
  constructor
  · intro rest i r
    rfl
  · intro k rest fins
    unfold handleChain
    rw [nextF_pass_chain]
    have hhalt : nextF render h (MW.halt RespV.upgraded :: rest) (0 + k) =
        (.upgraded, [.step (0 + k)]) := rfl
    rw [hhalt]
    simp [List.range'_concat]

/-- C9 counterexample: a middleware that maps the sentinel to an ordinary
response makes the chain continue — the finishing listener runs, no
`upgraded` notification is scheduled and a response body is returned,
although the second step returned the upgrade sentinel without invoking
its continuation. -/
theorem c9_counterexample :
    handleChain (fun e => e) [MW.thenCont (fun _ => Except.ok (RespV.resp 7)),
        MW.halt RespV.upgraded] (.ok (.resp 0)) [fun _ => none] =
      (some (.resp 7), [.step 0, .step 1, .finish 0, .finishedEv]) := by
  decide

/-! ## C5: `resolved` queries and subscriptions -/

/-- C5 (amended): without a callback, `resolved` answers whether a value
is already cached for the key (not merely a resolver registered).  With a
callback, it only registers the callback as a listener: it fires on
**every** subsequent resolution of the key — each successful `set` fires
all currently attached listeners with the stored value — and
subscribing does not fire anything by itself, not even when the key is
already resolved. -/
theorem c5_resolved (s : Ctx) (key : Key) :
    (resolvedQ s key = true ↔ ∃ v, alookup s.instances (Ref.k key) = some v) ∧
    (∀ cb, (resolvedCb key cb s).fired = s.fired ∧
       (resolvedCb key cb s).listeners = s.listeners ++ [(Ref.k key, cb)] ∧
       (resolvedCb key cb s).instances = s.instances) ∧
    (∀ v, key ∉ s.immutables →
       (setOp key v false s).1 = .ok () ∧
       (setOp key v false s).2.fired =
         s.fired ++ (listenersOf s (.k key)).map (fun cb => (cb, v))) := by
  refine ⟨?_, ?_, ?_⟩
  · simp [resolvedQ, Option.isSome_iff_exists]
  · intro cb
    exact ⟨rfl, rfl, rfl⟩
  · intro v h
    constructor
    · simp [setOp, h]
    · simp [setOp, h, doSet]

/-- The empty container. -/
def c5s : Ctx := ⟨[], [], [], [], [], [], [], [], [], []⟩

theorem c5_witness :
    (setOp 0 (Val.num 5) false c5s).1 = .ok () ∧
      (setOp 0 (Val.num 5) false c5s).2.fired =
        c5s.fired ++ (listenersOf c5s (.k 0)).map (fun cb => (cb, Val.num 5)) :=
  (c5_resolved c5s 0).2.2 (Val.num 5) (by decide)

/-- C5 counterexample: a callback subscribed via `resolved(key, cb)` is
attached with `on`, not `once` — setting the key twice fires it twice,
so it does not fire "exactly once when the key is next resolved". -/
theorem c5_counterexample :
    ((setOp 0 (Val.num 2) false
        (setOp 0 (Val.num 1) false (resolvedCb 0 7 c5s)).2).2).fired =
      [(7, Val.num 1), (7, Val.num 2)] ∧
    (((setOp 0 (Val.num 2) false
        (setOp 0 (Val.num 1) false (resolvedCb 0 7 c5s)).2).2).fired.filter
      (fun p => p.1 = 7)).length = 2 := by
  exact ⟨by decide, by decide⟩

/-! ## Frame lemmas: what resolution leaves untouched -/

theorem frameC_refl (s : Ctx) : frameC s s := ⟨rfl, rfl, rfl, rfl, rfl⟩

theorem frameC_trans {a b c : Ctx} (h1 : frameC a b) (h2 : frameC b c) : frameC a c :=
  ⟨h2.1.trans h1.1, h2.2.1.trans h1.2.1, h2.2.2.1.trans h1.2.2.1,
   h2.2.2.2.1.trans h1.2.2.2.1, h2.2.2.2.2.trans h1.2.2.2.2⟩

theorem frameC_doSet (r : Ref) (v : Val) (s : Ctx) : frameC s (doSet r v s) :=
  ⟨rfl, rfl, rfl, rfl, rfl⟩

theorem frameC_bumpK (key : Key) (s : Ctx) : frameC s (bumpK key s) :=
  ⟨rfl, rfl, rfl, rfl, rfl⟩

theorem frameC_bumpT (ty : Ty) (s : Ctx) : frameC s (bumpT ty s) :=
  ⟨rfl, rfl, rfl, rfl, rfl⟩

theorem runProg_frame (resF : Key → List Ref → Ctx → RRes)
    (hres : ∀ key refs s, frameC s (resF key refs s).2)
    (refs : List Ref) (p : RProg) (s : Ctx) :
    frameC s ((runProg resF refs p s).2) := by
  induction p generalizing s with
  | ret v => exact frameC_refl s
  | get key cont ih =>
    unfold runProg
    cases hr : resF key refs s with
    | mk r s1 =>
      have h1 : frameC s s1 := by
        have := hres key refs s
        rw [hr] at this
        exact this
      cases r with
      | ok v => exact frameC_trans h1 (ih v s1)
      | error e => exact h1

/-! ### Step lemmas: one-case unfoldings of `resolveF` and `buildF` -/

theorem resolveF_step_cached {s : Ctx} {key : Key} {v : Val} (n : Nat) (refs : List Ref)
    (h : alookup s.instances (.k key) = some v) :
    resolveF (n + 1) key refs s = (.ok v, s) := by
  simp [resolveF, h]

theorem resolveF_step_circ {s : Ctx} {key : Key} (n : Nat) {refs : List Ref}
    (h1 : alookup s.instances (.k key) = none) (h2 : Ref.k key ∈ refs) :
    resolveF (n + 1) key refs s =
      (.error (.resolution (circularMsg refs (toString key))), s) := by
  simp [resolveF, h1, h2]

theorem resolveF_step_run {s s1 : Ctx} {key : Key} {prog : RProg} {n : Nat}
    {refs : List Ref} {r : Except CtxError Val}
    (h1 : alookup s.instances (.k key) = none) (h2 : Ref.k key ∉ refs)
    (h3 : alookup s.resolvers key = some prog)
    (h4 : runProg (resolveF n) (refs ++ [Ref.k key]) prog (bumpK key s) = (r, s1)) :
    resolveF (n + 1) key refs s =
      (match r with
       | .ok v => (.ok v, doSet (.k key) v s1)
       | .error e => (.error e, s1)) := by
  cases r with
  | ok v => simp [resolveF, h1, h2, h3, h4]
  | error e => simp [resolveF, h1, h2, h3, h4]

theorem resolveF_step_default {s : Ctx} {key : Key} {v : Val} (n : Nat) {refs : List Ref}
    (h1 : alookup s.instances (.k key) = none) (h2 : Ref.k key ∉ refs)
    (h3 : alookup s.resolvers key = none) (h4 : alookup s.defaults key = some v) :
    resolveF (n + 1) key refs s =
      (.ok v, { s with instances := aset s.instances (.k key) v }) := by
  simp [resolveF, h1, h2, h3, h4]

theorem resolveF_step_missing {s : Ctx} {key : Key} (n : Nat) {refs : List Ref}
    (h1 : alookup s.instances (.k key) = none) (h2 : Ref.k key ∉ refs)
    (h3 : alookup s.resolvers key = none) (h4 : alookup s.defaults key = none) :
    resolveF (n + 1) key refs s =
      (.error (.resolution (noResolverMsg refs key)), s) := by
  simp [resolveF, h1, h2, h3, h4]

theorem buildF_step_singleton_hit {s : Ctx} {ty : Ty} {v : Val} (n : Nat) (refs : List Ref)
    (h : alookup s.instances (.t ty) = some v) :
    buildF (n + 1) (.singleton ty refs) s = (.ok v, s) := by
  simp [buildF, h]

theorem buildF_step_singleton_miss {s s1 : Ctx} {ty : Ty} {n : Nat} {refs : List Ref}
    {r : Except CtxError Val}
    (h : alookup s.instances (.t ty) = none)
    (h2 : buildF n (.construct ty refs) s = (r, s1)) :
    buildF (n + 1) (.singleton ty refs) s =
      (match r with
       | .ok v => (.ok v, doSet (.t ty) v s1)
       | .error e => (.error e, s1)) := by
  cases r with
  | ok v => simp [buildF, h, h2]
  | error e => simp [buildF, h, h2]

theorem buildF_step_construct_circ {s : Ctx} {ty : Ty} (n : Nat) {refs : List Ref}
    (h : Ref.t ty ∈ refs) :
    buildF (n + 1) (.construct ty refs) s =
      (.error (.resolution (circularMsg refs (toString ty))), s) := by
  simp [buildF, h]

theorem buildF_step_construct_cached {s : Ctx} {ty : Ty} (n : Nat) {refs : List Ref}
    (h1 : Ref.t ty ∉ refs) (h2 : ty ∈ s.classes) :
    buildF (n + 1) (.construct ty refs) s = (.ok (.inst ty), bumpT ty s) := by
  simp [buildF, h1, h2]

theorem buildF_step_construct_fresh {s s1 : Ctx} {ty : Ty} {n : Nat} {refs : List Ref}
    {r : Except CtxError Val}
    (h1 : Ref.t ty ∉ refs) (h2 : ty ∉ s.classes)
    (h3 : buildF n (.wantsLoop (wantsOf s ty) (refs ++ [Ref.t ty])) s = (r, s1)) :
    buildF (n + 1) (.construct ty refs) s =
      (match r with
       | .ok _ => (.ok (.inst ty), bumpT ty { s1 with classes := s1.classes ++ [ty] })
       | .error e => (.error e, s1)) := by
  cases r with
  | ok v => simp [buildF, h1, h2, h3]
  | error e => simp [buildF, h1, h2, h3]

theorem buildF_step_wants_nil (n : Nat) (refs : List Ref) (s : Ctx) :
    buildF (n + 1) (.wantsLoop [] refs) s = (.ok (.num 0), s) := rfl

theorem buildF_step_wants_ck {s s1 : Ctx} {key : Key} {n : Nat} {refs : List Ref}
    {ws : List Want} {r : Except CtxError Val}
    (h : resolveF n key refs s = (r, s1)) :
    buildF (n + 1) (.wantsLoop (.ck key :: ws) refs) s =
      (match r with
       | .ok _ => buildF n (.wantsLoop ws refs) s1
       | .error e => (.error e, s1)) := by
  cases r with
  | ok v => simp [buildF, h]
  | error e => simp [buildF, h]

theorem buildF_step_wants_sg {s s1 : Ctx} {ty : Ty} {n : Nat} {refs : List Ref}
    {ws : List Want} {r : Except CtxError Val}
    (h : buildF n (.singleton ty refs) s = (r, s1)) :
    buildF (n + 1) (.wantsLoop (.sg ty :: ws) refs) s =
      (match r with
       | .ok _ => buildF n (.wantsLoop ws refs) s1
       | .error e => (.error e, s1)) := by
  cases r with
  | ok v => simp [buildF, h]
  | error e => simp [buildF, h]

theorem resolveF_frame : ∀ (n : Nat) (key : Key) (refs : List Ref) (s : Ctx),
    frameC s ((resolveF n key refs s).2) := by
  intro n
  induction n with
  | zero => intro key refs s; exact frameC_refl s
  | succ m ih =>
    intro key refs s
    cases h1 : alookup s.instances (.k key) with
    | some v => rw [resolveF_step_cached m refs h1]; exact frameC_refl s
    | none =>
      by_cases h2 : Ref.k key ∈ refs
      · rw [resolveF_step_circ m h1 h2]; exact frameC_refl s
      · cases h3 : alookup s.resolvers key with
        | some prog =>
          cases h4 : runProg (resolveF m) (refs ++ [Ref.k key]) prog (bumpK key s) with
          | mk r s1 =>
            have hrp := runProg_frame (resolveF m) ih (refs ++ [Ref.k key]) prog (bumpK key s)
            rw [h4] at hrp
            have hb : frameC s s1 := frameC_trans (frameC_bumpK key s) hrp
            rw [resolveF_step_run h1 h2 h3 h4]
            cases r with
            | ok v => exact frameC_trans hb (frameC_doSet (.k key) v s1)
            | error e => exact hb
        | none =>
          cases h5 : alookup s.defaults key with
          | some v =>
            rw [resolveF_step_default m h1 h2 h3 h5]
            exact ⟨rfl, rfl, rfl, rfl, rfl⟩
          | none =>
            rw [resolveF_step_missing m h1 h2 h3 h5]
            exact frameC_refl s

theorem buildF_frame : ∀ (n : Nat) (task : BTask) (s : Ctx),
    frameC s ((buildF n task s).2) := by
  intro n
  induction n with
  | zero => intro task s; exact frameC_refl s
  | succ m ih =>
    intro task s
    cases task with
    | singleton ty refs =>
      cases h1 : alookup s.instances (.t ty) with
      | some v => rw [buildF_step_singleton_hit m refs h1]; exact frameC_refl s
      | none =>
        cases h2 : buildF m (.construct ty refs) s with
        | mk r s1 =>
          have hc := ih (.construct ty refs) s
          rw [h2] at hc
          rw [buildF_step_singleton_miss h1 h2]
          cases r with
          | ok v => exact frameC_trans hc (frameC_doSet (.t ty) v s1)
          | error e => exact hc
    | construct ty refs =>
      by_cases h1 : Ref.t ty ∈ refs
      · rw [buildF_step_construct_circ m h1]; exact frameC_refl s
      · by_cases h2 : ty ∈ s.classes
        · rw [buildF_step_construct_cached m h1 h2]; exact frameC_bumpT ty s
        · cases h3 : buildF m (.wantsLoop (wantsOf s ty) (refs ++ [Ref.t ty])) s with
          | mk r s1 =>
            have hw := ih (.wantsLoop (wantsOf s ty) (refs ++ [Ref.t ty])) s
            rw [h3] at hw
            rw [buildF_step_construct_fresh h1 h2 h3]
            cases r with
            | ok v =>
              refine frameC_trans hw (frameC_trans ?_ (frameC_bumpT ty _))
              exact ⟨rfl, rfl, rfl, rfl, rfl⟩
            | error e => exact hw
    | wantsLoop ws refs =>
      cases ws with
      | nil => exact frameC_refl s
      | cons w wt =>
        cases w with
        | ck key =>
          cases h2 : resolveF m key refs s with
          | mk r s1 =>
            have h1 := resolveF_frame m key refs s
            rw [h2] at h1
            rw [buildF_step_wants_ck h2]
            cases r with
            | ok v => exact frameC_trans h1 (ih (.wantsLoop wt refs) s1)
            | error e => exact h1
        | sg ty =>
          cases h2 : buildF m (.singleton ty refs) s with
          | mk r s1 =>
            have h1 := ih (.singleton ty refs) s
            rw [h2] at h1
            rw [buildF_step_wants_sg h2]
            cases r with
            | ok v => exact frameC_trans h1 (ih (.wantsLoop wt refs) s1)
            | error e => exact h1

/-- Every public operation can only extend the immutability set. -/
theorem applyOp_immutables_grow (op : COp) (s : Ctx) :
    s.immutables <+: (applyOp op s).immutables := by
  cases op with
  | cset key v i =>
    show s.immutables <+: ((setOp key v i s).2).immutables
    unfold setOp
    by_cases h1 : key ∈ s.immutables
    · simp [h1]
    · simp only [h1, if_false]
      cases i with
      | true =>
        by_cases h2 : hasKey s key = true
        · simp [h2]
        · simp only [h2, if_false, Bool.false_eq_true]
          exact ⟨[key], rfl⟩
      | false =>
        simp only [Bool.false_eq_true, if_false]
        exact (List.prefix_refl _)
  | creg key r i =>
    show s.immutables <+: ((registerOp key r i s).2).immutables
    unfold registerOp
    by_cases h1 : key ∈ s.immutables
    · simp [h1]
    · simp only [h1, if_false]
      cases i with
      | true =>
        by_cases h2 : hasKey s key = true
        · simp [h2]
        · simp only [h2, if_false, Bool.false_eq_true]
          exact ⟨[key], rfl⟩
      | false =>
        simp only [Bool.false_eq_true, if_false]
        exact (List.prefix_refl _)
  | cder key f =>
    show s.immutables <+: ((deriveOp key f s).2).immutables
    unfold deriveOp
    by_cases h1 : key ∈ s.immutables
    · simp [h1]
    · simp only [h1, if_false]
      cases alookup s.resolvers key with
      | none => exact List.prefix_refl _
      | some orig => exact List.prefix_refl _
  | crep fuel key f =>
    show s.immutables <+: ((replaceOp fuel key f s).2).immutables
    unfold replaceOp
    by_cases h1 : key ∈ s.immutables
    · simp [h1]
    · simp only [h1, if_false]
      have hf := resolveF_frame fuel key [] s
      cases h2 : resolveF fuel key [] s with
      | mk r s1 =>
        rw [h2] at hf
        cases r with
        | ok v =>
          show s.immutables <+: ((doSet (.k key) (f v) s1)).immutables
          rw [(frameC_doSet (.k key) (f v) s1).2.1, hf.2.1]
        | error e =>
          rw [hf.2.1]
  | cget fuel key =>
    show s.immutables <+: ((resolveF fuel key [] s).2).immutables
    rw [(resolveF_frame fuel key [] s).2.1]
  | cres key cb => exact List.prefix_refl _
  | ccon fuel ty =>
    show s.immutables <+: ((buildF fuel (.construct ty []) s).2).immutables
    rw [(buildF_frame fuel (.construct ty []) s).2.1]
  | csin fuel ty =>
    show s.immutables <+: ((buildF fuel (.singleton ty []) s).2).immutables
    rw [(buildF_frame fuel (.singleton ty []) s).2.1]

/-! ## C4: immutability -/

/-- C4: on an immutable key, `set`, `register`, `derive` and `replace`
all fail with a `ResolutionError` and leave the container unchanged; no
public operation ever removes a key from the immutability set (the key
stays immutable for the container's lifetime); requesting immutability
while the key already holds a value or resolver fails; and a key that is
not immutable can always be set (and stays non-immutable, so it can be
set any number of times). -/
theorem c4_immutability (s : Ctx) (key : Key) :
    (key ∈ s.immutables →
      (∀ v i, failedRes (setOp key v i s).1 ∧ (setOp key v i s).2 = s) ∧
      (∀ r i, failedRes (registerOp key r i s).1 ∧ (registerOp key r i s).2 = s) ∧
      (∀ f, failedRes (deriveOp key f s).1 ∧ (deriveOp key f s).2 = s) ∧
      (∀ fuel f, failedRes (replaceOp fuel key f s).1 ∧ (replaceOp fuel key f s).2 = s)) ∧
    (∀ op, key ∈ s.immutables → key ∈ (applyOp op s).immutables) ∧
    ((alookup s.instances (.k key)).isSome = true ∨ (alookup s.resolvers key).isSome = true →
      (∀ v, failedRes (setOp key v true s).1) ∧
      (∀ r, failedRes (registerOp key r true s).1)) ∧
    (key ∉ s.immutables → ∀ v,
      (setOp key v false s).1 = .ok () ∧ key ∉ ((setOp key v false s).2).immutables) := by
  refine ⟨?_, ?_, ?_, ?_⟩
  · intro h
    refine ⟨?_, ?_, ?_, ?_⟩
    · intro v i
      exact ⟨⟨"Cannot set " ++ toString key ++ ": immutable instance",
        by simp [setOp, h]⟩, by simp [setOp, h]⟩
    · intro r i
      exact ⟨⟨"Cannot derive " ++ toString key ++ ": immutable instance",
        by simp [registerOp, h]⟩, by simp [registerOp, h]⟩
    · intro f
      exact ⟨⟨"Cannot derive " ++ toString key ++ ": immutable instance",
        by simp [deriveOp, h]⟩, by simp [deriveOp, h]⟩
    · intro fuel f
      exact ⟨⟨"Cannot replace " ++ toString key ++ ": immutable instance",
        by simp [replaceOp, h]⟩, by simp [replaceOp, h]⟩
  · intro op h
    exact (applyOp_immutables_grow op s).subset h
  · intro h
    have hk : hasKey s key = true := by
      unfold hasKey
      rcases h with h | h <;> simp [h]
    constructor
    · intro v
      by_cases h1 : key ∈ s.immutables
      · exact ⟨"Cannot set " ++ toString key ++ ": immutable instance",
          by simp [setOp, h1]⟩
      · exact ⟨"Cannot set " ++ toString key ++
          " as immutable: context already exists and is not immutable",
          by simp [setOp, h1, hk]⟩
    · intro r
      by_cases h1 : key ∈ s.immutables
      · exact ⟨"Cannot derive " ++ toString key ++ ": immutable instance",
          by simp [registerOp, h1]⟩
      · exact ⟨"Cannot set " ++ toString key ++
          " as immutable: context already exists and is not immutable",
          by simp [registerOp, h1, hk]⟩
  · intro h v
    exact ⟨by simp [setOp, h], by simp [setOp, h, doSet]⟩

/-- Container with an immutable key `0` and a plain key `1`. -/
def c4s : Ctx := ⟨[(Ref.k 0, Val.num 1)], [], [0], [], [], [], [], [], [], []⟩

theorem c4_witness :
    (failedRes (setOp 0 (Val.num 2) false c4s).1 ∧ (setOp 0 (Val.num 2) false c4s).2 = c4s) ∧
    (0 ∈ (applyOp (.cset 1 (Val.num 3) false) c4s).immutables) ∧
    (failedRes (setOp 0 (Val.num 2) true c5s).1 ∨ True) ∧
    ((setOp 1 (Val.num 3) false c4s).1 = .ok () ∧
      1 ∉ ((setOp 1 (Val.num 3) false c4s).2).immutables) := by
  have h := c4_immutability c4s 0
  have h1 := c4_immutability c4s 1
  refine ⟨(h.1 (by decide)).1 (Val.num 2) false, ?_, .inr trivial, ?_⟩
  · exact h.2.1 (.cset 1 (Val.num 3) false) (by decide)
  · exact h1.2.2.2 (by decide) (Val.num 3)

/-! ## C2: memoization -/

theorem countK_bumpK_self (key : Key) (s : Ctx) :
    countK (bumpK key s) key = countK s key + 1 := by
  simp [countK, bumpK, alookup_aset_self]

theorem countK_bumpK_other (key k' : Key) (s : Ctx) (h : key ≠ k') :
    countK (bumpK key s) k' = countK s k' := by
  simp [countK, bumpK, alookup_aset_other _ _ _ _ h]

theorem countK_doSet (r : Ref) (v : Val) (s : Ctx) (k : Key) :
    countK (doSet r v s) k = countK s k := rfl

theorem instSome_refl (s : Ctx) : instSome s s := fun _ h => h

theorem instSome_trans {a b c : Ctx} (h1 : instSome a b) (h2 : instSome b c) :
    instSome a c := fun r h => h2 r (h1 r h)

theorem instSome_doSet (r : Ref) (v : Val) (s : Ctx) : instSome s (doSet r v s) :=
  fun r' h => aset_isSome s.instances r r' v h

theorem instSome_bumpK (key : Key) (s : Ctx) : instSome s (bumpK key s) := fun _ h => h

theorem runProg_ret (resF : Key → List Ref → Ctx → RRes) (refs : List Ref) (w : Val)
    (s : Ctx) : runProg resF refs (.ret w) s = (.ok w, s) := rfl

theorem runProg_get_ok {resF : Key → List Ref → Ctx → RRes} {refs : List Ref} {key : Key}
    {cont : Val → RProg} {s s1 : Ctx} {w : Val} (h : resF key refs s = (.ok w, s1)) :
    runProg resF refs (.get key cont) s = runProg resF refs (cont w) s1 := by
  simp [runProg, h]

theorem runProg_get_err {resF : Key → List Ref → Ctx → RRes} {refs : List Ref} {key : Key}
    {cont : Val → RProg} {s s1 : Ctx} {e : CtxError} (h : resF key refs s = (.error e, s1)) :
    runProg resF refs (.get key cont) s = (.error e, s1) := by
  simp [runProg, h]

theorem runProg_inv (resF : Key → List Ref → Ctx → RRes) (refs : List Ref)
    (hres : ∀ key s v s1, InvC refs s → resF key refs s = (.ok v, s1) →
      InvC refs s1 ∧ instSome s s1)
    (p : RProg) : ∀ (s : Ctx), InvC refs s → ∀ (v : Val) (s' : Ctx),
    runProg resF refs p s = (.ok v, s') → InvC refs s' ∧ instSome s s' := by
  induction p with
  | ret w =>
    intro s hinv v s' hrun
    rw [runProg_ret] at hrun
    simp at hrun
    rw [← hrun.2]
    exact ⟨hinv, instSome_refl s⟩
  | get key cont ih =>
    intro s hinv v s' hrun
    cases hr : resF key refs s with
    | mk r s1 =>
      cases r with
      | ok w =>
        rw [runProg_get_ok hr] at hrun
        have h1 := hres key s w s1 hinv hr
        have h2 := ih w s1 h1.1 v s' hrun
        exact ⟨h2.1, instSome_trans h1.2 h2.2⟩
      | error e =>
        rw [runProg_get_err hr] at hrun
        simp at hrun

theorem resolveF_inv : ∀ (n : Nat) (key : Key) (refs : List Ref) (s : Ctx) (v : Val)
    (s' : Ctx), InvC refs s → resolveF n key refs s = (.ok v, s') →
    InvC refs s' ∧ instSome s s' := by
  intro n
  induction n with
  | zero =>
    intro key refs s v s' _ h
    simp [resolveF] at h
  | succ m ih =>
    intro key refs s v s' hinv h
    cases h1 : alookup s.instances (.k key) with
    | some w =>
      rw [resolveF_step_cached m refs h1] at h
      simp at h
      rw [← h.2]
      exact ⟨hinv, instSome_refl s⟩
    | none =>
      by_cases h2 : Ref.k key ∈ refs
      · rw [resolveF_step_circ m h1 h2] at h
        simp at h
      · cases h3 : alookup s.resolvers key with
        | some prog =>
          cases h4 : runProg (resolveF m) (refs ++ [Ref.k key]) prog (bumpK key s) with
          | mk r s1 =>
            rw [resolveF_step_run h1 h2 h3 h4] at h
            cases r with
            | error e => simp at h
            | ok w =>
              simp at h
              have hcount0 : countK s key = 0 := by
                by_contra hq
                have hle := (hinv key).1
                have h1eq : countK s key = 1 := by omega
                rcases (hinv key).2 h1eq with hc | hc
                · rw [h1] at hc
                  simp at hc
                · exact h2 hc
              have hinv1 : InvC (refs ++ [Ref.k key]) (bumpK key s) := by
                intro k'
                by_cases hk : key = k'
                · subst hk
                  constructor
                  · rw [countK_bumpK_self, hcount0]
                  · intro _
                    exact .inr (by simp)
                · rw [countK_bumpK_other _ _ _ hk]
                  refine ⟨(hinv k').1, fun hc => ?_⟩
                  rcases (hinv k').2 hc with hx | hx
                  · exact .inl hx
                  · exact .inr (by simp [hx])
              have hrp := runProg_inv (resolveF m) (refs ++ [Ref.k key])
                (fun key' s'' v'' s1'' hI hE => ih key' (refs ++ [Ref.k key]) s'' v'' s1'' hI hE)
                prog (bumpK key s) hinv1 w s1 h4
              rw [← h.2]
              constructor
              · intro k'
                rw [countK_doSet]
                refine ⟨(hrp.1 k').1, fun hc => ?_⟩
                rcases (hrp.1 k').2 hc with hx | hx
                · exact .inl (instSome_doSet (.k key) w s1 _ hx)
                · rcases List.mem_append.mp hx with hy | hy
                  · exact .inr hy
                  · simp at hy
                    subst hy
                    refine .inl ?_
                    simp [doSet, alookup_aset_self]
              · exact instSome_trans (instSome_bumpK key s)
                  (instSome_trans hrp.2 (instSome_doSet (.k key) w s1))
        | none =>
          cases h5 : alookup s.defaults key with
          | some w =>
            rw [resolveF_step_default m h1 h2 h3 h5] at h
            simp at h
            rw [← h.2]
            constructor
            · intro k'
              refine ⟨(hinv k').1, fun hc => ?_⟩
              rcases (hinv k').2 hc with hx | hx
              · exact .inl (aset_isSome s.instances (.k key) (.k k') w hx)
              · exact .inr hx
            · intro r hr
              exact aset_isSome s.instances (.k key) r w hr
          | none =>
            rw [resolveF_step_missing m h1 h2 h3 h5] at h
            simp at h

theorem runGets_inv (fuel : Nat) : ∀ (ks : List Key) (s : Ctx), InvC [] s →
    (runGets fuel ks s).1 = .ok () → InvC [] (runGets fuel ks s).2 := by
  intro ks
  induction ks with
  | nil =>
    intro s h _
    exact h
  | cons key rest ih =>
    intro s h hok
    cases hg : getOp fuel key s with
    | mk r s1 =>
      cases r with
      | ok v =>
        have hstep : runGets fuel (key :: rest) s = runGets fuel rest s1 := by
          simp [runGets, hg]
        rw [hstep] at hok ⊢
        exact ih s1 (resolveF_inv fuel key [] s v s1 h hg).1 hok
      | error e =>
        have hstep : runGets fuel (key :: rest) s = (.error e, s1) := by
          simp [runGets, hg]
        rw [hstep] at hok
        simp at hok

theorem singleton_ok_cached {fuel : Nat} {ty : Ty} {refs : List Ref} {s : Ctx} {v : Val}
    {s1 : Ctx} (h : buildF fuel (.singleton ty refs) s = (.ok v, s1)) :
    alookup s1.instances (.t ty) = some v := by
  cases fuel with
  | zero => simp [buildF] at h
  | succ m =>
    cases h1 : alookup s.instances (.t ty) with
    | some w =>
      rw [buildF_step_singleton_hit m refs h1] at h
      simp at h
      rw [← h.2, h1, h.1]
    | none =>
      cases h2 : buildF m (.construct ty refs) s with
      | mk r s2 =>
        rw [buildF_step_singleton_miss h1 h2] at h
        cases r with
        | error e => simp at h
        | ok w =>
          simp at h
          rw [← h.2]
          show alookup (aset s2.instances (.t ty) w) (.t ty) = some v
          rw [alookup_aset_self, h.1]

/-- C2 (amended): as long as every lookup succeeds, any number of `get`
calls invoke each key's resolver at most once per container (the cache is
written synchronously before the value is returned); and a `singleton`
lookup made after an earlier one completed returns the cached instance
with the container unchanged — no second construction.  (A failed
resolution is not cached, so a later `get` runs the resolver again; and a
second `singleton` that begins before the first's asynchronous
construction completes re-enters construction, because the type cache is
written only after the construction's suspension points.) -/
theorem c2_memoization :
    (∀ fuel (ks : List Key) (s : Ctx), (∀ k, countK s k = 0) →
       (runGets fuel ks s).1 = .ok () →
       ∀ k, countK (runGets fuel ks s).2 k ≤ 1) ∧
    (∀ fuel ty (s : Ctx) v s1, buildF fuel (.singleton ty []) s = (.ok v, s1) →
       ∀ fuel1, buildF (fuel1 + 1) (.singleton ty []) s1 = (.ok v, s1)) := by
  constructor
  · intro fuel ks s h0 hok k
    have hinv : InvC [] s := by
      intro k'
      constructor
      · rw [h0 k']
        omega
      · intro hc
        rw [h0 k'] at hc
        exact absurd hc (by decide)
    exact ((runGets_inv fuel ks s hinv hok) k).1
  · intro fuel ty s v s1 h fuel1
    exact buildF_step_singleton_hit fuel1 [] (singleton_ok_cached h)

/-- Container whose key-0 resolver reads the missing key 1. -/
def c2s : Ctx := ⟨[], [(0, .get 1 RProg.ret)], [], [], [], [], [], [], [], []⟩

/-- C2 counterexample: the first `get 0` fails (dependency missing), the
failure is not cached, and the second `get 0` invokes the resolver
again — two invocations for one key on one container. -/
theorem c2_counterexample :
    countK (getOp 9 0 (getOp 9 0 c2s).2).2 0 = 2 := by decide

/-- Container with a plain resolver for key 2 and a dependency-free
type 5. -/
def c2sW : Ctx := ⟨[], [(2, .ret (.num 7))], [], [], [], [], [], [], [], [(5, [])]⟩

theorem c2_witness :
    countK (runGets 9 [2, 2] c2sW).2 2 ≤ 1 ∧
      buildF 1 (.singleton 5 []) (buildF 9 (.singleton 5 []) c2sW).2 =
        (.ok (.inst 5), (buildF 9 (.singleton 5 []) c2sW).2) := by
  constructor
  · exact c2_memoization.1 9 [2, 2] c2sW (fun k => rfl) (by decide) 2
  · exact c2_memoization.2 9 5 c2sW (.inst 5) (buildF 9 (.singleton 5 []) c2sW).2
      rfl 0

/-! ## C3: cycle detection and termination -/

theorem circularMsg_two (r1 r2 : Ref) (last : String) :
    circularMsg [r1, r2] last =
      "Circular dependency detected: " ++ referenceToString r1 ++ " -> " ++
        referenceToString r2 ++ " -> " ++ last := by
  simp [circularMsg, chainMsg, String.intercalate, String.intercalate.go, String.append_assoc]

theorem cycle_key (A B : Key) (s : Ctx) (n : Nat) (hne : A ≠ B)
    (hiA : alookup s.instances (.k A) = none) (hiB : alookup s.instances (.k B) = none)
    (hrA : alookup s.resolvers A = some (.get B RProg.ret))
    (hrB : alookup s.resolvers B = some (.get A RProg.ret)) :
    (resolveF (n + 3) A [] s).1 =
      .error (.resolution ("Circular dependency detected: " ++ toString A ++ " -> " ++
        toString B ++ " -> " ++ toString A)) := by
  have hmsg := circularMsg_two (Ref.k A) (Ref.k B) (toString A)
  simp only [referenceToString] at hmsg
  have e1 : resolveF (n + 1) A [Ref.k A, Ref.k B] (bumpK B (bumpK A s)) =
      (.error (.resolution (circularMsg [Ref.k A, Ref.k B] (toString A))),
        bumpK B (bumpK A s)) :=
    resolveF_step_circ n hiA (by simp)
  have e2 : runProg (resolveF (n + 1)) [Ref.k A, Ref.k B] (RProg.get A RProg.ret)
      (bumpK B (bumpK A s)) =
      (.error (.resolution (circularMsg [Ref.k A, Ref.k B] (toString A))),
        bumpK B (bumpK A s)) :=
    runProg_get_err e1
  have e3 : resolveF (n + 2) B [Ref.k A] (bumpK A s) =
      (.error (.resolution (circularMsg [Ref.k A, Ref.k B] (toString A))),
        bumpK B (bumpK A s)) := by
    rw [resolveF_step_run (s := bumpK A s) hiB (by simp [Ne.symm hne]) hrB e2]
  have e4 : runProg (resolveF (n + 2)) [Ref.k A] (RProg.get B RProg.ret) (bumpK A s) =
      (.error (.resolution (circularMsg [Ref.k A, Ref.k B] (toString A))),
        bumpK B (bumpK A s)) :=
    runProg_get_err e3
  have e5 : resolveF (n + 3) A [] s =
      (.error (.resolution (circularMsg [Ref.k A, Ref.k B] (toString A))),
        bumpK B (bumpK A s)) := by
    rw [resolveF_step_run (s := s) hiA (by simp) hrA e4]
  rw [e5, ← hmsg]

theorem filter_len_mono (l : List α) (p q : α → Bool) (h : ∀ x, q x = true → p x = true) :
    (l.filter q).length ≤ (l.filter p).length := by
  induction l with
  | nil => simp
  | cons a t ih =>
    by_cases hq : q a = true
    · rw [List.filter_cons_of_pos hq, List.filter_cons_of_pos (h a hq)]
      simpa using ih
    · rw [List.filter_cons_of_neg (by simpa using hq)]
      by_cases hp : p a = true
      · rw [List.filter_cons_of_pos hp]
        exact Nat.le_succ_of_le ih
      · rw [List.filter_cons_of_neg (by simpa using hp)]
        exact ih

theorem outside_decr_list (l : List (Key × RProg)) (key : Key) (refs : List Ref)
    (prog : RProg) (hres : alookup l key = some prog) (hnotin : Ref.k key ∉ refs) :
    (l.filter (fun p => Ref.k p.1 ∉ refs ++ [Ref.k key])).length + 1 ≤
      (l.filter (fun p => Ref.k p.1 ∉ refs)).length := by
  induction l with
  | nil => simp [alookup] at hres
  | cons a t ih =>
    obtain ⟨a1, a2⟩ := a
    by_cases ha : a1 = key
    · subst ha
      rw [List.filter_cons_of_neg (by simp), List.filter_cons_of_pos (by simpa using hnotin)]
      have hmono := filter_len_mono t (fun p => decide (Ref.k p.1 ∉ refs))
        (fun p => decide (Ref.k p.1 ∉ refs ++ [Ref.k a1]))
        (fun x hx => by
          simp at hx
          simp [hx.1])
      simp only [List.length_cons]
      omega
    · have hres' : alookup t key = some prog := by
        simp [alookup, ha] at hres
        exact hres
      by_cases hm : Ref.k a1 ∈ refs
      · rw [List.filter_cons_of_neg (by simp [hm]), List.filter_cons_of_neg (by simp [hm])]
        exact ih hres'
      · rw [List.filter_cons_of_pos (by simp [hm, ha]), List.filter_cons_of_pos (by simpa using hm)]
        have := ih hres'
        simp only [List.length_cons]
        omega

theorem resolversOutside_decr (s : Ctx) (key : Key) (refs : List Ref) (prog : RProg)
    (hres : alookup s.resolvers key = some prog) (hnotin : Ref.k key ∉ refs) :
    resolversOutside (refs ++ [Ref.k key]) s + 1 ≤ resolversOutside refs s :=
  outside_decr_list s.resolvers key refs prog hres hnotin

theorem resolveF_no_fuelOut : ∀ (n : Nat) (key : Key) (refs : List Ref) (s : Ctx),
    resolversOutside refs s + 1 ≤ n → (resolveF n key refs s).1 ≠ .error .fuelOut := by
  intro n
  induction n with
  | zero =>
    intro key refs s h
    exact absurd h (by omega)
  | succ m ih =>
    intro key refs s hb
    cases h1 : alookup s.instances (.k key) with
    | some w =>
      rw [resolveF_step_cached m refs h1]
      simp
    | none =>
      by_cases h2 : Ref.k key ∈ refs
      · rw [resolveF_step_circ m h1 h2]
        simp
      · cases h3 : alookup s.resolvers key with
        | some prog =>
          have hout : resolversOutside (refs ++ [Ref.k key]) s + 1 ≤ m := by
            have := resolversOutside_decr s key refs prog h3 h2
            omega
          have haux : ∀ (p : RProg) (s' : Ctx), s'.resolvers = s.resolvers →
              (runProg (resolveF m) (refs ++ [Ref.k key]) p s').1 ≠ .error .fuelOut ∧
              ((runProg (resolveF m) (refs ++ [Ref.k key]) p s').2).resolvers =
                s.resolvers := by
            intro p
            induction p with
            | ret w =>
              intro s' hs
              exact ⟨by simp [runProg_ret], hs⟩
            | get key' cont ihp =>
              intro s' hs
              cases hr : resolveF m key' (refs ++ [Ref.k key]) s' with
              | mk r s1 =>
                have hres1 : s1.resolvers = s.resolvers := by
                  have hf := (resolveF_frame m key' (refs ++ [Ref.k key]) s').1
                  rw [hr] at hf
                  exact hf.trans hs
                cases r with
                | ok w =>
                  rw [runProg_get_ok hr]
                  exact ihp w s1 hres1
                | error e =>
                  rw [runProg_get_err hr]
                  refine ⟨?_, hres1⟩
                  have hbound : resolversOutside (refs ++ [Ref.k key]) s' + 1 ≤ m := by
                    unfold resolversOutside
                    rw [hs]
                    exact hout
                  have hno := ih key' (refs ++ [Ref.k key]) s' hbound
                  rw [hr] at hno
                  exact hno
          have hm2 := haux prog (bumpK key s) rfl
          cases h4 : runProg (resolveF m) (refs ++ [Ref.k key]) prog (bumpK key s) with
          | mk r s1 =>
            rw [resolveF_step_run h1 h2 h3 h4]
            rw [h4] at hm2
            cases r with
            | ok w => simp
            | error e => simpa using hm2.1
        | none =>
          cases h5 : alookup s.defaults key with
          | some w =>
            rw [resolveF_step_default m h1 h2 h3 h5]
            simp
          | none =>
            rw [resolveF_step_missing m h1 h2 h3 h5]
            simp

theorem cycle_type (A B : Ty) (s : Ctx) (n : Nat) (hne : A ≠ B)
    (hiA : alookup s.instances (.t A) = none) (hiB : alookup s.instances (.t B) = none)
    (hcA : A ∉ s.classes) (hcB : B ∉ s.classes)
    (hwA : wantsOf s A = [.sg B]) (hwB : wantsOf s B = [.sg A]) :
    (buildF (n + 8) (.singleton A []) s).1 =
      .error (.resolution ("Circular dependency detected: " ++ toString A ++ " -> " ++
        toString B ++ " -> " ++ toString A)) := by
  have hmsg := circularMsg_two (Ref.t A) (Ref.t B) (toString A)
  simp only [referenceToString] at hmsg
  set err := CtxError.resolution (circularMsg [Ref.t A, Ref.t B] (toString A)) with herr
  have e1 : buildF (n + 1) (.construct A [Ref.t A, Ref.t B]) s = (.error err, s) :=
    buildF_step_construct_circ n (by simp)
  have e2 : buildF (n + 2) (.singleton A [Ref.t A, Ref.t B]) s = (.error err, s) := by
    rw [buildF_step_singleton_miss hiA e1]
  have e3 : buildF (n + 3) (.wantsLoop [Want.sg A] [Ref.t A, Ref.t B]) s =
      (.error err, s) := by
    rw [buildF_step_wants_sg e2]
  have h3B : buildF (n + 3) (.wantsLoop (wantsOf s B) ([Ref.t A] ++ [Ref.t B])) s =
      (.error err, s) := by
    rw [hwB]
    exact e3
  have e4 : buildF (n + 4) (.construct B [Ref.t A]) s = (.error err, s) := by
    rw [buildF_step_construct_fresh (by simp [Ne.symm hne]) hcB h3B]
  have e5 : buildF (n + 5) (.singleton B [Ref.t A]) s = (.error err, s) := by
    rw [buildF_step_singleton_miss hiB e4]
  have e6 : buildF (n + 6) (.wantsLoop [Want.sg B] [Ref.t A]) s = (.error err, s) := by
    rw [buildF_step_wants_sg e5]
  have h3A : buildF (n + 6) (.wantsLoop (wantsOf s A) ([] ++ [Ref.t A])) s =
      (.error err, s) := by
    rw [hwA]
    exact e6
  have e7 : buildF (n + 7) (.construct A []) s = (.error err, s) := by
    rw [buildF_step_construct_fresh (by simp) hcA h3A]
  have e8 : buildF (n + 8) (.singleton A []) s = (.error err, s) := by
    rw [buildF_step_singleton_miss hiA e7]
  rw [e8, herr, ← hmsg]

/-- C3: a two-key resolver cycle (`A` gets `B`, `B` gets `A`) makes `get`
on `A` terminate with a `ResolutionError` whose message enumerates the
dependency chain in traversal order and mentions both keys; resolution
never recurses unboundedly — any fuel (stack depth) exceeding the number
of registered resolvers outside the reference set suffices, so the
fuel-exhaustion outcome is unreachable (no stack overflow); and the same
reference-set discipline rejects type-level cycles in
`construct`/`singleton`, with the same chain message. -/
theorem c3_cycle_detection :
    (∀ (A B : Key) (s : Ctx) (n : Nat), A ≠ B →
      alookup s.instances (.k A) = none → alookup s.instances (.k B) = none →
      alookup s.resolvers A = some (.get B RProg.ret) →
      alookup s.resolvers B = some (.get A RProg.ret) →
      (resolveF (n + 3) A [] s).1 =
        .error (.resolution ("Circular dependency detected: " ++ toString A ++ " -> " ++
          toString B ++ " -> " ++ toString A))) ∧
    (∀ (n : Nat) (key : Key) (refs : List Ref) (s : Ctx),
      resolversOutside refs s + 1 ≤ n → (resolveF n key refs s).1 ≠ .error .fuelOut) ∧
    (∀ (A B : Ty) (s : Ctx) (n : Nat), A ≠ B →
      alookup s.instances (.t A) = none → alookup s.instances (.t B) = none →
      A ∉ s.classes → B ∉ s.classes →
      wantsOf s A = [.sg B] → wantsOf s B = [.sg A] →
      (buildF (n + 8) (.singleton A []) s).1 =
        .error (.resolution ("Circular dependency detected: " ++ toString A ++ " -> " ++
          toString B ++ " -> " ++ toString A))) :=
  ⟨fun A B s n h1 h2 h3 h4 h5 => cycle_key A B s n h1 h2 h3 h4 h5,
   resolveF_no_fuelOut,
   fun A B s n h1 h2 h3 h4 h5 h6 h7 => cycle_type A B s n h1 h2 h3 h4 h5 h6 h7⟩

/-- Container with the resolver cycle `0 -> 1 -> 0`. -/
def c3s : Ctx := ⟨[], [(0, .get 1 RProg.ret), (1, .get 0 RProg.ret)], [], [], [], [], [],
  [], [], []⟩

/-- Container with the singleton type cycle `0 -> 1 -> 0`. -/
def c3t : Ctx := ⟨[], [], [], [], [], [], [], [], [], [(0, [.sg 1]), (1, [.sg 0])]⟩

theorem c3_witness :
    (resolveF 3 0 [] c3s).1 =
      .error (.resolution ("Circular dependency detected: " ++ toString 0 ++ " -> " ++
        toString 1 ++ " -> " ++ toString 0)) ∧
    (resolveF 9 0 [] c3s).1 ≠ .error .fuelOut ∧
    (buildF 8 (.singleton 0 []) c3t).1 =
      .error (.resolution ("Circular dependency detected: " ++ toString 0 ++ " -> " ++
        toString 1 ++ " -> " ++ toString 0)) :=
  ⟨c3_cycle_detection.1 0 1 c3s 0 (by decide) rfl rfl rfl rfl,
   c3_cycle_detection.2.1 9 0 [] c3s (by decide),
   c3_cycle_detection.2.2 0 1 c3t 0 (by decide) rfl rfl (by decide) (by decide) rfl rfl⟩

/-! ## C6: the specificity order of parametric rules -/

theorem ruleLE_iff (a b : ParamRule) :
    ruleLE a b ↔ b.params < a.params ∨ (b.params = a.params ∧ b.statics ≤ a.statics) := by
  unfold ruleLE sortParamRule
  dsimp only
  split_ifs with h <;> omega

instance : IsTotal ParamRule ruleLE :=
  ⟨fun a b => by
    rw [ruleLE_iff, ruleLE_iff]
    omega⟩

instance : IsTrans ParamRule ruleLE :=
  ⟨fun a b c hab hbc => by
    rw [ruleLE_iff] at hab hbc ⊢
    omega⟩

theorem WFSorted_empty : WFSorted Matcher.empty :=
  .node none none [] [] [] List.Pairwise.nil (by simp) (by simp)

theorem put_cons_lit {part t : String} (r f : Option Route) (ex : List (String × Matcher))
    (pa : List (List Piece × Matcher)) (so : List ParamRule) (rest : List String)
    (route : Route) (fb : Bool) (h : evaluateRule part = .lit t) :
    Matcher.put (.node r f ex pa so) (part :: rest) route fb =
      .node r f (aset ex part (((alookup ex part).getD Matcher.empty).put rest route fb))
        pa so := by
  simp [Matcher.put, h]

theorem put_cons_par {part : String} {rule : ParamRule} (r f : Option Route)
    (ex : List (String × Matcher)) (pa : List (List Piece × Matcher)) (so : List ParamRule)
    (rest : List String) (route : Route) (fb : Bool) (h : evaluateRule part = .par rule) :
    Matcher.put (.node r f ex pa so) (part :: rest) route fb =
      .node r f ex
        (aset pa rule.pieces (((alookup pa rule.pieces).getD Matcher.empty).put rest route fb))
        (jsSort (so ++ [rule])) := by
  simp [Matcher.put, h]

theorem WFSorted_put : ∀ (parts : List String) (m : Matcher) (route : Route) (fb : Bool),
    WFSorted m → WFSorted (m.put parts route fb) := by
  intro parts
  induction parts with
  | nil =>
    intro m route fb hm
    cases m with
    | node r f ex pa so =>
      cases hm with
      | node _ _ _ _ _ hso hex hpa =>
        cases fb
        · exact .node _ _ _ _ _ hso hex hpa
        · exact .node _ _ _ _ _ hso hex hpa
  | cons part rest ih =>
    intro m route fb hm
    cases m with
    | node r f ex pa so =>
      cases hm with
      | node _ _ _ _ _ hso hex hpa =>
        cases hev : evaluateRule part with
        | lit t =>
          rw [put_cons_lit r f ex pa so rest route fb hev]
          refine .node _ _ _ _ _ hso ?_ hpa
          intro p hp
          rcases mem_aset ex part _ p hp with hp1 | hp1
          · subst hp1
            refine ih _ route fb ?_
            cases hl : alookup ex part with
            | some c =>
              simpa [hl] using hex (part, c) (alookup_mem ex part c hl)
            | none => simpa [hl] using WFSorted_empty
          · exact hex p hp1
        | par rule =>
          rw [put_cons_par r f ex pa so rest route fb hev]
          refine .node _ _ _ _ _ ?_ hex ?_
          · exact List.sorted_insertionSort ruleLE (so ++ [rule])
          · intro p hp
            rcases mem_aset pa rule.pieces _ p hp with hp1 | hp1
            · subst hp1
              refine ih _ route fb ?_
              cases hl : alookup pa rule.pieces with
              | some c =>
                simpa [hl] using hpa (rule.pieces, c) (alookup_mem pa rule.pieces c hl)
              | none => simpa [hl] using WFSorted_empty
            · exact hpa p hp1

theorem WFSorted_build_aux (regs : List (List String × Route × Bool)) :
    ∀ m, WFSorted m → WFSorted (regs.foldl (fun m r => m.put r.1 r.2.1 r.2.2) m) := by
  induction regs with
  | nil =>
    intro m hm
    exact hm
  | cons reg rest ih =>
    intro m hm
    exact ih _ (WFSorted_put reg.1 m reg.2.1 reg.2.2 hm)

/-- C6 (amended): in any matcher built by route registrations, every
node's parametric rule list is sorted by the specificity comparator:
along the list, each rule compares no worse than every later one
(strictly more parameters, or a parameter tie with at least as many
literal characters).  Consequently a rule strictly more specific than
another is always tried before it: the reversed pair is never ordered in
a comparator-sorted list.  On full ties (equal parameters and equal
literal counts) the order is the stable sort's insertion order, so "A
tried before B" holds in some tie cases where A is not more specific than
B. -/
theorem c6_specificity (regs : List (List String × Route × Bool)) :
    WFSorted (buildMatcher regs) ∧
    (∀ (so : List ParamRule) (A B : ParamRule), so.Pairwise ruleLE →
       strictSpec A B → ¬ [B, A].Sublist so) := by
  constructor
  · exact WFSorted_build_aux regs Matcher.empty WFSorted_empty
  · intro so A B hso hAB hsub
    have hpw := List.Pairwise.sublist hsub hso
    have hBA : ruleLE B A := by
      cases hpw with
      | cons hhead _ => exact hhead A (by simp)
    rw [ruleLE_iff] at hBA
    unfold strictSpec at hAB
    omega

/-- One-parameter rules `{x}` and `{y}`: equal parameter and literal
counts. -/
def ruleX : ParamRule := ⟨[Piece.prm ("x")], 1, 0⟩

/-- See `ruleX`. -/
def ruleY : ParamRule := ⟨[Piece.prm ("y")], 1, 0⟩

/-- Matcher with `{x}` registered before `{y}` at the root. -/
def c6m : Matcher :=
  (Matcher.empty.put [("\x7bx\x7d")] ⟨0, "/\x7bx\x7d", none⟩ false).put
    [("\x7by\x7d")] ⟨1, "/\x7by\x7d", none⟩ false

/-- C6 counterexample: both rules can match the same segment (`"z"`),
`{x}` is tried before `{y}` (it is first in the node's sorted list), yet
`{x}` has neither strictly more parameters nor a parameter tie with more
literal characters — so "tries A before B exactly when A is more
specific" fails on ties, where insertion order decides. -/
theorem c6_counterexample :
    c6m.topSorted = [ruleX, ruleY] ∧ ¬ strictSpec ruleX ruleY ∧
      (matchPieces ruleX.pieces ("z").data).isSome = true ∧
      (matchPieces ruleY.pieces ("z").data).isSome = true := by
  refine ⟨by decide, by decide, by decide, by decide⟩

theorem c6_witness :
    WFSorted (buildMatcher [([("\x7bx\x7d")], ⟨0, "/\x7bx\x7d", none⟩, false)]) ∧
      ¬ [ruleY, ⟨[Piece.prm ("x"), Piece.lit ("a")], 1, 1⟩].Sublist
        [⟨[Piece.prm ("x"), Piece.lit ("a")], 1, 1⟩, ruleY] :=
  ⟨(c6_specificity [([("\x7bx\x7d")], ⟨0, "/\x7bx\x7d", none⟩, false)]).1,
   (c6_specificity []).2 [⟨[Piece.prm ("x"), Piece.lit ("a")], 1, 1⟩, ruleY]
     ⟨[Piece.prm ("x"), Piece.lit ("a")], 1, 1⟩ ruleY (by decide) (by decide)⟩

end Kuso
